import Mathlib

/-!
NRF51 RNG low level driver (`os/hal/ports/NRF51/NRF51822/rng_lld.c`).

A shallow embedding of `rng_lld_start`, `rng_lld_stop` and `rng_lld_write`
over an explicit machine state (the RNG register block, `SCB->SCR`, the NVIC
pending latches, the generator and a log of every hardware access), followed
by the properties of the driver proved about it.
-/

namespace RngLld

/-! ## Data model -/

/-- Constants of the device headers (`nrf51_bitfields.h`, `core_cm0.h`,
`nrf51.h`).  The headers are not part of the driver source, so the driver is
embedded over an arbitrary choice of them. -/
structure Header where
  RNG_CONFIG_DERCEN_Msk : Nat
  RNG_INTENSET_VALRDY_Msk : Nat
  RNG_SHORTS_VALRDY_STOP_Msk : Nat
  SCB_SCR_SEVONPEND_Msk : Nat
  RNG_IRQn : Nat
  deriving DecidableEq, Repr

/-- The values the nRF51 headers give to the constants; used for concrete runs. -/
def nrf51 : Header :=
  { RNG_CONFIG_DERCEN_Msk := 1
    RNG_INTENSET_VALRDY_Msk := 1
    RNG_SHORTS_VALRDY_STOP_Msk := 1
    SCB_SCR_SEVONPEND_Msk := 16
    RNG_IRQn := 13 }

/-- Status codes of the kernel (`msg_t`); `rng_lld_write` only ever returns `MSG_OK`. -/
inductive msg_t where
  | MSG_OK
  | MSG_TIMEOUT
  | MSG_RESET
  deriving DecidableEq, Repr

/-- The driver configuration `RNGConfig`. -/
structure RNGConfig where
  digital_error_correction : Bool
  power_on_write : Bool
  deriving DecidableEq, Repr

/-- The constant `default_config` of the driver (source lines 36-39). -/
def default_config : RNGConfig :=
  { digital_error_correction := true
    power_on_write := true }

/-- The part of `RNGDriver` the low level driver uses: the `config` pointer
(`none` is `NULL`).  The `rng` pointer is `NRF_RNG`, as `rng_lld_init` sets it. -/
structure RNGDriver where
  config : Option RNGConfig
  deriving DecidableEq, Repr

/-- The hardware registers the driver touches. -/
inductive Reg where
  | POWER
  | CONFIG
  | INTENSET
  | TASKS_START
  | TASKS_STOP
  | SHORTS
  | EVENTS_VALRDY
  | VALUE
  | SCB_SCR
  deriving DecidableEq, Repr

/-- One hardware access, as recorded in the log. -/
inductive Access where
  | rd (r : Reg) (v : Nat)
  | wr (r : Reg) (v : Nat)
  | sev
  | wfe
  | nvicClearPending (irq : Nat)
  deriving DecidableEq, Repr

/-- The machine: the RNG register block, `SCB->SCR`, the NVIC pending latches,
the state of the generator, the time (in hardware ticks) and the log of the
accesses made so far, oldest first. -/
structure Machine where
  POWER : Nat
  CONFIG : Nat
  INTENSET : Nat
  SHORTS : Nat
  EVENTS_VALRDY : Nat
  VALUE : Nat
  SCR : Nat
  pending : List Nat
  running : Bool
  now : Nat
  log : List Access
  deriving DecidableEq, Repr

/-- The hardware event stream: at tick `t` the entropy source either completes
the value `v` (`some v`) or does not (`none`, the tick is a spurious wake-up). -/
abbrev Env := Nat → Option Nat

/-! ## The peripheral -/

/-- Modelled from the spec: the RNG peripheral latching a value (the hardware
is not code of the driver).  The value register takes the value, the
ready-event flag is set, the interrupt line is latched pending when the
interrupt source is enabled, and the VALRDY_STOP shortcut, when set in SHORTS,
stops the generator. -/
def latch (k : Header) (v : Nat) (m : Machine) : Machine :=
  { m with
    VALUE := v
    EVENTS_VALRDY := 1
    pending := if m.INTENSET &&& k.RNG_INTENSET_VALRDY_Msk = 0 then m.pending
               else k.RNG_IRQn :: m.pending
    running := if m.SHORTS &&& k.RNG_SHORTS_VALRDY_STOP_Msk = 0 then m.running
               else false }

/-- Modelled from the spec: one tick of hardware time.  A running generator
latches the value the event stream completes at this tick, if any. -/
def tick (k : Header) (env : Env) (m : Machine) : Machine :=
  let m1 := match m.running, env m.now with
    | true, some v => latch k v m
    | _, _ => m
  { m1 with now := m.now + 1 }

/-- The value a read of the register returns (task registers read as zero). -/
def Machine.get (m : Machine) : Reg → Nat
  | .POWER => m.POWER
  | .CONFIG => m.CONFIG
  | .INTENSET => m.INTENSET
  | .TASKS_START => 0
  | .TASKS_STOP => 0
  | .SHORTS => m.SHORTS
  | .EVENTS_VALRDY => m.EVENTS_VALRDY
  | .VALUE => m.VALUE
  | .SCB_SCR => m.SCR

/-- Modelled from the spec: the effect of a register write on the hardware.
Plain registers store the value; writing 1 to TASKS_START starts the
generator and writing 1 to TASKS_STOP stops it. -/
def Machine.put (m : Machine) : Reg → Nat → Machine
  | .POWER, v => { m with POWER := v }
  | .CONFIG, v => { m with CONFIG := v }
  | .INTENSET, v => { m with INTENSET := v }
  | .TASKS_START, v => if v = 1 then { m with running := true } else m
  | .TASKS_STOP, v => if v = 1 then { m with running := false } else m
  | .SHORTS, v => { m with SHORTS := v }
  | .EVENTS_VALRDY, v => { m with EVENTS_VALRDY := v }
  | .VALUE, _ => m
  | .SCB_SCR, v => { m with SCR := v }

/-- A logged register read. -/
def rd (r : Reg) (m : Machine) : Nat × Machine :=
  (m.get r, { m with log := m.log ++ [Access.rd r (m.get r)] })

/-- A logged register write. -/
def wr (r : Reg) (v : Nat) (m : Machine) : Machine :=
  { m.put r v with log := m.log ++ [Access.wr r v] }

/-- Modelled from the spec: the instruction `__SEV()`, the "signal event"
primitive; it changes no register of the model. -/
def sev (m : Machine) : Machine :=
  { m with log := m.log ++ [Access.sev] }

/-- Modelled from the spec: the instruction `__WFE()`, the "wait for event"
primitive: the processor may sleep, so one tick of hardware time passes. -/
def wfe (k : Header) (env : Env) (m : Machine) : Machine :=
  { tick k env m with log := m.log ++ [Access.wfe] }

/-- Modelled from the spec: the call `nvicClearPending(irq)`, which clears the
latched pending bit of the interrupt line at the controller. -/
def nvicClearPending (irq : Nat) (m : Machine) : Machine :=
  { m with
    pending := m.pending.filter (fun j => j != irq)
    log := m.log ++ [Access.nvicClearPending irq] }

/-! ## The driver -/

/-- The C expression `x & ~msk` on 32-bit unsigned operands. -/
def andNot32 (x msk : Nat) : Nat :=
  x &&& (0xFFFFFFFF ^^^ msk)

/-- The function `rng_lld_start` (source lines 83-96). -/
def rng_lld_start (k : Header) (rngp : RNGDriver) (m : Machine) : RNGDriver × Machine :=
  let cfg : RNGConfig :=
    match rngp.config with
    | none => default_config
    | some c => c
  let rngp : RNGDriver := { rngp with config := some cfg }
  let m := wr .POWER 1 m
  let m :=
    if cfg.digital_error_correction then
      let (c, m) := rd .CONFIG m
      wr .CONFIG (c ||| k.RNG_CONFIG_DERCEN_Msk) m
    else
      let (c, m) := rd .CONFIG m
      wr .CONFIG (andNot32 c k.RNG_CONFIG_DERCEN_Msk) m
  let m := wr .INTENSET k.RNG_INTENSET_VALRDY_Msk m
  let m := wr .TASKS_START 1 m
  (rngp, m)

/-- The function `rng_lld_stop` (source lines 106-109). -/
def rng_lld_stop (rngp : RNGDriver) (m : Machine) : RNGDriver × Machine :=
  let m := wr .TASKS_STOP 1 m
  let m := wr .POWER 0 m
  (rngp, m)

/-- The body of the wait loop (source lines 137-142): set SEVONPEND in
`SCB->SCR`, then `__SEV(); __WFE(); __WFE();`. -/
def spin (k : Header) (env : Env) (m : Machine) : Machine :=
  let (x, m) := rd .SCB_SCR m
  let m := wr .SCB_SCR (x ||| k.SCB_SCR_SEVONPEND_Msk) m
  let m := sev m
  let m := wfe k env m
  let m := wfe k env m
  m

/-- The wait loop `while (NRF_RNG->EVENTS_VALRDY == 0) { ... }` (source lines
136-143).  `fuel` bounds the number of times the flag is tested; `none` means
the flag was still unset after `fuel` tests. -/
def wait_valrdy (k : Header) (env : Env) : Nat → Machine → Option Machine
  | 0, _ => none
  | fuel + 1, m =>
    let (f, m) := rd .EVENTS_VALRDY m
    if f = 0 then
      wait_valrdy k env fuel (spin k env m)
    else
      some m

/-- The statements after the wait loop in the body of the `for` loop (source
lines 145-148): store the low byte of the value register in `buf[i]` (the
cast `(char)` into a `uint8_t`), clear the flag, clear the pending latch.  A
store past the end of the list is dropped; the properties below take `n`
within the buffer where the bytes matter. -/
def drain (k : Header) (i : Nat) (buf : List Nat) (m : Machine) : List Nat × Machine :=
  let (v, m) := rd .VALUE m
  let buf := buf.set i (v % 256)
  let m := wr .EVENTS_VALRDY 0 m
  let m := nvicClearPending k.RNG_IRQn m
  (buf, m)

/-- One iteration of the `for` loop (source lines 135-148). -/
def write_iter (k : Header) (env : Env) (fuel : Nat) (i : Nat) (buf : List Nat)
    (m : Machine) : Option (List Nat × Machine) :=
  match wait_valrdy k env fuel m with
  | none => none
  | some m => some (drain k i buf m)

/-- The loop `for (i = 0; i < n; i++)` (source lines 134-149), from index `i`
with `cnt = n - i` iterations left. -/
def write_loop (k : Header) (env : Env) (fuel : Nat) :
    Nat → Nat → List Nat → Machine → Option (List Nat × Machine)
  | 0, _, buf, m => some (buf, m)
  | cnt + 1, i, buf, m =>
    match write_iter k env fuel i buf m with
    | none => none
    | some (buf, m) => write_loop k env fuel cnt (i + 1) buf m

/-- The function `rng_lld_write` (source lines 121-151).  `none` means that the
call is still in a wait loop after `fuel` tests of the flag. -/
def rng_lld_write (k : Header) (env : Env) (fuel : Nat) (_rngp : RNGDriver)
    (buf : List Nat) (n : Nat) (_timeout : Nat) (m : Machine) :
    Option (msg_t × List Nat × Machine) :=
  if n = 0 then
    some (msg_t.MSG_OK, buf, m)
  else
    let m :=
      if n = 1 then
        let (x, m) := rd .SHORTS m
        wr .SHORTS (x ||| k.RNG_SHORTS_VALRDY_STOP_Msk) m
      else m
    let m := wr .EVENTS_VALRDY 0 m
    match write_loop k env fuel n 0 buf m with
    | none => none
    | some (buf, m) => some (msg_t.MSG_OK, buf, m)

/-- The machine at entry to the `for` loop of `rng_lld_write` (source lines
127-132, `n` not zero): the shortcut has been set when `n` is 1, and the flag
has been cleared. -/
def armed (k : Header) (n : Nat) (m : Machine) : Machine :=
  let m :=
    if n = 1 then
      let (x, m) := rd .SHORTS m
      wr .SHORTS (x ||| k.RNG_SHORTS_VALRDY_STOP_Msk) m
    else m
  wr .EVENTS_VALRDY 0 m

/-! ## Concrete data for runs -/

/-- The machine after reset: every register zero, generator stopped. -/
def reset : Machine :=
  { POWER := 0, CONFIG := 0, INTENSET := 0, SHORTS := 0, EVENTS_VALRDY := 0
    VALUE := 0, SCR := 0, pending := [], running := false, now := 0, log := [] }

/-- An event stream that completes a value at every tick. -/
def steady : Env := fun t => some (1000 + t)

/-- An event stream that completes a value at every third tick. -/
def slow : Env := fun t => if t % 3 = 2 then some (300 + t) else none

/-- A configuration without digital error correction. -/
def uncorrected : RNGConfig :=
  { digital_error_correction := false
    power_on_write := true }

/-- A machine that has been used before: CONFIG holds bits 0 and 5, the flag
is set and a value is latched. -/
def busy : Machine :=
  { POWER := 0, CONFIG := 33, INTENSET := 0, SHORTS := 0, EVENTS_VALRDY := 1
    VALUE := 77, SCR := 4, pending := [13], running := false, now := 5, log := [] }

/-- The machine after a first start, without a configuration, from reset. -/
def started : Machine :=
  (rng_lld_start nrf51 { config := none } reset).2

/-! ## Projections of the log -/

/-- The log of `j` unsuccessful tests of the flag, starting with `SCB->SCR = scr`. -/
def spinLog (k : Header) : Nat → Nat → List Access
  | _, 0 => []
  | scr, j + 1 =>
    [Access.rd .EVENTS_VALRDY 0, Access.rd .SCB_SCR scr,
      Access.wr .SCB_SCR (scr ||| k.SCB_SCR_SEVONPEND_Msk), Access.sev, Access.wfe, Access.wfe]
      ++ spinLog k (scr ||| k.SCB_SCR_SEVONPEND_Msk) j

/-- The events of a harvest that matter for its order. -/
inductive Key where
  | clear
  | observe
  | drain
  deriving DecidableEq, Repr

/-- The key event an access is, if any: a write of zero to the flag is a clear,
a read of the flag that finds it set is an observation, a read of the value
register is a drain. -/
def keyOf : Access → Option Key
  | .wr .EVENTS_VALRDY 0 => some Key.clear
  | .rd .EVENTS_VALRDY (_ + 1) => some Key.observe
  | .rd .VALUE _ => some Key.drain
  | _ => none

/-- The key events of a log, in order. -/
def keyEvents (l : List Access) : List Key :=
  l.filterMap keyOf

/-- The value a read of the value register returned, if the access is one. -/
def valueOf : Access → Option Nat
  | .rd .VALUE v => some v
  | _ => none

/-- The values read from the value register, in order. -/
def valueReads (l : List Access) : List Nat :=
  l.filterMap valueOf

/-- Whether the access reads or writes the register. -/
def touches (r : Reg) : Access → Bool
  | .rd r1 _ => r1 == r
  | .wr r1 _ => r1 == r
  | _ => false

/-- What one iteration of the `for` loop saw: `SCB->SCR` at entry, the number
of unsuccessful tests of the flag, the set flag it then read (`flag + 1`, so
not zero) and the value it drained. -/
structure Harvest where
  scr : Nat
  spins : Nat
  flag : Nat
  value : Nat
  deriving DecidableEq, Repr

/-- The log of one iteration of the `for` loop. -/
def iterLog (k : Header) (h : Harvest) : List Access :=
  spinLog k h.scr h.spins ++
    [Access.rd .EVENTS_VALRDY (h.flag + 1), Access.rd .VALUE h.value,
      Access.wr .EVENTS_VALRDY 0, Access.nvicClearPending k.RNG_IRQn]

/-- The log of the `for` loop. -/
def loopLog (k : Header) : List Harvest → List Access
  | [] => []
  | h :: hs => iterLog k h ++ loopLog k hs

/-- The event stream completes a value after every tick. -/
def Productive (env : Env) : Prop :=
  ∀ t, ∃ t1, t ≤ t1 ∧ (env t1).isSome

/-- The key events of `n` iterations of the `for` loop: each observes the
flag set, drains the value and clears the flag. -/
def keyPattern : Nat → List Key
  | 0 => []
  | n + 1 => [Key.observe, Key.drain, Key.clear] ++ keyPattern n

/-- The number of writes of zero to the ready-event flag in a log. -/
def flagClears (l : List Access) : Nat :=
  l.count (Access.wr .EVENTS_VALRDY 0)

/-- The accesses of a log to the register. -/
def accessesTo (r : Reg) (l : List Access) : List Access :=
  l.filter (touches r)

/-- The auto-stop shortcut bit is set in SHORTS. -/
def ShortcutSet (k : Header) (m : Machine) : Prop :=
  m.SHORTS &&& k.RNG_SHORTS_VALRDY_STOP_Msk = k.RNG_SHORTS_VALRDY_STOP_Msk

/-- A step in the life of an instance: a call of the driver, or `idle`, one
tick of hardware time passing between two calls. -/
inductive Call where
  | start
  | stop
  | write (buf : List Nat) (n : Nat) (timeout : Nat) (fuel : Nat)
  | idle
  deriving DecidableEq, Repr

/-- The effect of one step on the instance and the machine; `none` when a
write is still waiting after its fuel. -/
def call (k : Header) (env : Env) : Call → RNGDriver × Machine → Option (RNGDriver × Machine)
  | .start, (rngp, m) => some (rng_lld_start k rngp m)
  | .stop, (rngp, m) => some (rng_lld_stop rngp m)
  | .idle, (rngp, m) => some (rngp, tick k env m)
  | .write buf n timeout fuel, (rngp, m) =>
    match rng_lld_write k env fuel rngp buf n timeout m with
    | none => none
    | some (_, _, m1) => some (rngp, m1)

/-- The effect of a sequence of steps, in order. -/
def calls (k : Header) (env : Env) : List Call → RNGDriver × Machine → Option (RNGDriver × Machine)
  | [], s => some s
  | c :: cs, s =>
    match call k env c s with
    | none => none
    | some s1 => calls k env cs s1

/-- The log of `rng_lld_write` before its `for` loop (source lines 127-132),
with `shorts` the value of SHORTS at entry: the shortcut is set when `n` is 1,
then the flag is cleared. -/
def armLog (k : Header) (n shorts : Nat) : List Access :=
  if n = 1 then
    [Access.rd .SHORTS shorts, Access.wr .SHORTS (shorts ||| k.RNG_SHORTS_VALRDY_STOP_Msk),
      Access.wr .EVENTS_VALRDY 0]
  else
    [Access.wr .EVENTS_VALRDY 0]

/-- Whether the access is a register read. -/
def isRead : Access → Bool
  | .rd _ _ => true
  | _ => false

/-- The accesses of a log that act on the hardware: all but the register reads. -/
def effects (l : List Access) : List Access :=
  l.filter (fun a => !isRead a)

/-- Whether the access is a read of `SCB->SCR`. -/
def isScrRead : Access → Bool
  | .rd .SCB_SCR _ => true
  | _ => false

/-- A log without its reads of `SCB->SCR`. -/
def exceptScrReads (l : List Access) : List Access :=
  l.filter (fun a => !isScrRead a)

/-- Two machines, each with its event stream, that a call of `rng_lld_write`
treats alike: same SHORTS, same state of the generator, `SCB->SCR` equal up to
the SEVONPEND bits, and event streams that agree from the present time of each
machine on. -/
def Alike (k : Header) (env1 env2 : Env) (s t : Machine) : Prop :=
  s.SHORTS = t.SHORTS ∧ s.running = t.running ∧
    s.SCR ||| k.SCB_SCR_SEVONPEND_Msk = t.SCR ||| k.SCB_SCR_SEVONPEND_Msk ∧
    ∀ j, env1 (s.now + j) = env2 (t.now + j)

/-- Two machines alike that also agree on the flag and, when it is set, on the
latched value. -/
def Synced (k : Header) (env1 env2 : Env) (s t : Machine) : Prop :=
  Alike k env1 env2 s t ∧ s.EVENTS_VALRDY = t.EVENTS_VALRDY ∧
    (s.EVENTS_VALRDY ≠ 0 → s.VALUE = t.VALUE)

/-- The machines `s1` and `t1` are reached from `s` and `t` by the same
accesses, up to the values read from `SCB->SCR`. -/
def SameSteps (s t s1 t1 : Machine) : Prop :=
  ∃ c1 c2, s1.log = s.log ++ c1 ∧ t1.log = t.log ++ c2 ∧
    exceptScrReads c1 = exceptScrReads c2

/-- Whether the step is a write with `n` other than 1, or time passing. -/
def notSingleByte : Call → Bool
  | .write _ n _ _ => n != 1
  | .idle => true
  | _ => false

/-- The calls `rng_lld_stop` then `rng_lld_start` on an instance. -/
def restart (k : Header) (s : RNGDriver × Machine) : RNGDriver × Machine :=
  rng_lld_start k (rng_lld_stop s.1 s.2).1 (rng_lld_stop s.1 s.2).2

/-- What a call shows of itself from the machine `m` it starts on: the status,
the buffer and the accesses it makes, up to the values read from `SCB->SCR`;
`none` when it is still waiting after its fuel. -/
def behaviour (m : Machine) (res : Option (msg_t × List Nat × Machine)) :
    Option (msg_t × List Nat × List Access) :=
  res.map (fun q => (q.1, q.2.1, exceptScrReads (q.2.2.log.drop m.log.length)))

/-! ## More concrete data -/

/-- The event stream `env`, `d` ticks late. -/
def delayed (d : Nat) (env : Env) : Env := fun t => env (t - d)

/-- The instance and the machine after a first start from reset and one
two-byte call. -/
def afterTwoBytes : RNGDriver × Machine :=
  (calls nrf51 steady [Call.write [0, 0] 2 0 3]
    (rng_lld_start nrf51 { config := none } reset)).getD ({ config := none }, reset)

/-- The instance and the machine after a first start from reset, one two-byte
call and one more tick, in which the generator, still running, latches a value. -/
def afterTwoBytesAndATick : RNGDriver × Machine :=
  (calls nrf51 steady [Call.write [0, 0] 2 0 3, Call.idle]
    (rng_lld_start nrf51 { config := none } reset)).getD ({ config := none }, reset)

/-- The instance and the machine after a first start from reset and one
single-byte call. -/
def afterOneByte : RNGDriver × Machine :=
  (calls nrf51 steady [Call.write [0] 1 0 3]
    (rng_lld_start nrf51 { config := none } reset)).getD ({ config := none }, reset)

/-! ## The primitives -/

section Primitives

variable (k : Header) (env : Env)

@[simp] theorem rd_fst (r : Reg) (m : Machine) : (rd r m).1 = m.get r := rfl

@[simp] theorem rd_snd (r : Reg) (m : Machine) :
    (rd r m).2 = { m with log := m.log ++ [Access.rd r (m.get r)] } := rfl

theorem tick_stopped (m : Machine) (h : m.running = false) :
    tick k env m = { m with now := m.now + 1 } := by
  simp [tick, h]

theorem tick_idle (m : Machine) (h : env m.now = none) :
    tick k env m = { m with now := m.now + 1 } := by
  unfold tick
  cases hr : m.running <;> simp [h, hr]

theorem tick_latch (m : Machine) (v : Nat) (hr : m.running = true) (h : env m.now = some v) :
    tick k env m = { latch k v m with now := m.now + 1 } := by
  simp [tick, hr, h]

@[simp] theorem tick_now (m : Machine) : (tick k env m).now = m.now + 1 := rfl

@[simp] theorem tick_log (m : Machine) : (tick k env m).log = m.log := by
  unfold tick; split <;> rfl

@[simp] theorem tick_POWER (m : Machine) : (tick k env m).POWER = m.POWER := by
  unfold tick; split <;> rfl

@[simp] theorem tick_CONFIG (m : Machine) : (tick k env m).CONFIG = m.CONFIG := by
  unfold tick; split <;> rfl

@[simp] theorem tick_INTENSET (m : Machine) : (tick k env m).INTENSET = m.INTENSET := by
  unfold tick; split <;> rfl

@[simp] theorem tick_SHORTS (m : Machine) : (tick k env m).SHORTS = m.SHORTS := by
  unfold tick; split <;> rfl

@[simp] theorem tick_SCR (m : Machine) : (tick k env m).SCR = m.SCR := by
  unfold tick; split <;> rfl

end Primitives

/-! ## The body of the wait loop -/

section Spin

variable (k : Header) (env : Env)

/-- The machine the two `__WFE()` of the body start from. -/
theorem spin_eq (m : Machine) :
    spin k env m = wfe k env (wfe k env { m with
      SCR := m.SCR ||| k.SCB_SCR_SEVONPEND_Msk
      log := m.log ++ [Access.rd .SCB_SCR m.SCR,
        Access.wr .SCB_SCR (m.SCR ||| k.SCB_SCR_SEVONPEND_Msk), Access.sev] }) := by
  simp [spin, sev, wr, Machine.put, Machine.get]

@[simp] theorem spin_log (m : Machine) :
    (spin k env m).log = m.log ++ [Access.rd .SCB_SCR m.SCR,
      Access.wr .SCB_SCR (m.SCR ||| k.SCB_SCR_SEVONPEND_Msk), Access.sev, Access.wfe,
      Access.wfe] := by
  simp [spin_eq, wfe]

@[simp] theorem spin_now (m : Machine) : (spin k env m).now = m.now + 2 := by
  simp [spin_eq, wfe]

@[simp] theorem spin_POWER (m : Machine) : (spin k env m).POWER = m.POWER := by
  simp [spin_eq, wfe]

@[simp] theorem spin_CONFIG (m : Machine) : (spin k env m).CONFIG = m.CONFIG := by
  simp [spin_eq, wfe]

@[simp] theorem spin_INTENSET (m : Machine) : (spin k env m).INTENSET = m.INTENSET := by
  simp [spin_eq, wfe]

@[simp] theorem spin_SHORTS (m : Machine) : (spin k env m).SHORTS = m.SHORTS := by
  simp [spin_eq, wfe]

@[simp] theorem spin_SCR (m : Machine) :
    (spin k env m).SCR = m.SCR ||| k.SCB_SCR_SEVONPEND_Msk := by
  simp [spin_eq, wfe]

/-- A stopped generator stays stopped and leaves flag and value alone. -/
theorem spin_stopped (m : Machine) (h : m.running = false) :
    (spin k env m).running = false ∧ (spin k env m).EVENTS_VALRDY = m.EVENTS_VALRDY ∧
      (spin k env m).VALUE = m.VALUE ∧ (spin k env m).pending = m.pending := by
  simp [spin_eq, wfe, tick_stopped, h]

/-- Two ticks without a completed value change nothing but the time. -/
theorem spin_quiet (m : Machine) (h0 : env m.now = none) (h1 : env (m.now + 1) = none) :
    (spin k env m).running = m.running ∧ (spin k env m).EVENTS_VALRDY = m.EVENTS_VALRDY ∧
      (spin k env m).VALUE = m.VALUE ∧ (spin k env m).pending = m.pending := by
  simp [spin_eq, wfe, tick_idle, h0, h1]

/-- A tick either only advances the time or latches a completed value. -/
theorem tick_cases (m : Machine) :
    tick k env m = { m with now := m.now + 1 } ∨
      (m.running = true ∧ ∃ v, env m.now = some v ∧
        tick k env m = { latch k v m with now := m.now + 1 }) := by
  by_cases hr : m.running = true
  · rcases he : env m.now with _ | v
    · exact Or.inl (tick_idle k env m he)
    · exact Or.inr ⟨hr, v, rfl, tick_latch k env m v hr he⟩
  · exact Or.inl (tick_stopped k env m (by simpa using hr))

theorem tick_flag (m : Machine) :
    (tick k env m).EVENTS_VALRDY = m.EVENTS_VALRDY ∨ (tick k env m).EVENTS_VALRDY = 1 := by
  rcases tick_cases k env m with h | ⟨_, v, _, h⟩ <;> simp [h, latch]

theorem tick_running_clear (m : Machine) (h : m.SHORTS &&& k.RNG_SHORTS_VALRDY_STOP_Msk = 0) :
    (tick k env m).running = m.running := by
  rcases tick_cases k env m with h1 | ⟨_, v, _, h1⟩ <;> simp [h1, latch, h]

theorem tick_running_le (m : Machine) (h : (tick k env m).running = true) :
    m.running = true := by
  rcases tick_cases k env m with h1 | ⟨hr, v, _, h1⟩
  · simpa [h1] using h
  · exact hr

/-- When the shortcut is set, a tick that changes the flag stops the generator. -/
theorem tick_stops (m : Machine) (h : m.SHORTS &&& k.RNG_SHORTS_VALRDY_STOP_Msk ≠ 0)
    (hf : (tick k env m).EVENTS_VALRDY ≠ m.EVENTS_VALRDY) :
    (tick k env m).running = false := by
  rcases tick_cases k env m with h1 | ⟨_, v, _, h1⟩
  · simp [h1] at hf
  · simp [h1, latch, h]

theorem tick_latched (m : Machine) (hr : m.running = true) (he : (env m.now).isSome) :
    (tick k env m).EVENTS_VALRDY = 1 := by
  obtain ⟨v, hv⟩ := Option.isSome_iff_exists.mp he
  simp [tick_latch k env m v hr hv, latch]

theorem spin_flag (m : Machine) :
    (spin k env m).EVENTS_VALRDY = m.EVENTS_VALRDY ∨ (spin k env m).EVENTS_VALRDY = 1 := by
  rw [spin_eq]
  simp only [wfe]
  rcases tick_flag k env { tick k env { m with
      SCR := m.SCR ||| k.SCB_SCR_SEVONPEND_Msk
      log := m.log ++ [Access.rd .SCB_SCR m.SCR,
        Access.wr .SCB_SCR (m.SCR ||| k.SCB_SCR_SEVONPEND_Msk), Access.sev] } with
      log := (m.log ++ [Access.rd .SCB_SCR m.SCR,
        Access.wr .SCB_SCR (m.SCR ||| k.SCB_SCR_SEVONPEND_Msk), Access.sev]) ++ [Access.wfe] }
    with h | h
  · rcases tick_flag k env { m with
      SCR := m.SCR ||| k.SCB_SCR_SEVONPEND_Msk
      log := m.log ++ [Access.rd .SCB_SCR m.SCR,
        Access.wr .SCB_SCR (m.SCR ||| k.SCB_SCR_SEVONPEND_Msk), Access.sev] } with h2 | h2
    · left; simpa [h2] using h
    · right; simpa [h2] using h
  · right; simpa using h

@[simp] theorem wfe_now (m : Machine) : (wfe k env m).now = m.now + 1 := rfl

@[simp] theorem wfe_SHORTS (m : Machine) : (wfe k env m).SHORTS = m.SHORTS := by
  simp [wfe]

@[simp] theorem wfe_running (m : Machine) : (wfe k env m).running = (tick k env m).running := rfl

@[simp] theorem wfe_flag (m : Machine) :
    (wfe k env m).EVENTS_VALRDY = (tick k env m).EVENTS_VALRDY := rfl

/-- The body of the wait loop is two `__WFE()` from a machine that differs from
the entry machine in `SCB->SCR` and the log only. -/
theorem spin_pre (m : Machine) :
    ∃ m0 : Machine, spin k env m = wfe k env (wfe k env m0) ∧ m0.running = m.running ∧
      m0.SHORTS = m.SHORTS ∧ m0.EVENTS_VALRDY = m.EVENTS_VALRDY ∧ m0.now = m.now :=
  ⟨_, spin_eq k env m, rfl, rfl, rfl, rfl⟩

/-- With the shortcut clear the body of the wait loop leaves the generator as it is. -/
theorem spin_running_clear (m : Machine) (h : m.SHORTS &&& k.RNG_SHORTS_VALRDY_STOP_Msk = 0) :
    (spin k env m).running = m.running := by
  obtain ⟨m0, e, hr, hs, -, -⟩ := spin_pre k env m
  rw [e, wfe_running, tick_running_clear k env _ (by simpa [hs] using h), wfe_running,
    tick_running_clear k env _ (by simpa [hs] using h), hr]

/-- The body of the wait loop never starts the generator. -/
theorem spin_running_le (m : Machine) (h : (spin k env m).running = true) :
    m.running = true := by
  obtain ⟨m0, e, hr, -, -, -⟩ := spin_pre k env m
  rw [e, wfe_running] at h
  have h1 := tick_running_le k env _ h
  rw [wfe_running] at h1
  rw [← hr]
  exact tick_running_le k env _ h1

/-- With the shortcut set, a body of the wait loop that changes the flag leaves
the generator stopped. -/
theorem spin_stops (m : Machine) (h : m.SHORTS &&& k.RNG_SHORTS_VALRDY_STOP_Msk ≠ 0)
    (hf : (spin k env m).EVENTS_VALRDY ≠ m.EVENTS_VALRDY) :
    (spin k env m).running = false := by
  obtain ⟨m0, e, -, hs, hfl, -⟩ := spin_pre k env m
  rw [e] at hf ⊢
  rw [wfe_running]
  by_cases h1 : (tick k env m0).EVENTS_VALRDY = m0.EVENTS_VALRDY
  · apply tick_stops k env _ (by simpa [hs] using h)
    rw [wfe_flag] at hf
    simpa [h1, hfl] using hf
  · have hstop : (wfe k env m0).running = false :=
      tick_stops k env m0 (by simpa [hs] using h) h1
    rw [tick_stopped k env _ hstop]
    exact hstop

/-- A running generator that completes a value during the body of the wait
loop sets the flag. -/
theorem spin_latched (m : Machine) (hr : m.running = true)
    (he : (env m.now).isSome ∨ (env (m.now + 1)).isSome) :
    (spin k env m).EVENTS_VALRDY = 1 := by
  obtain ⟨m0, e, hr0, -, -, hn⟩ := spin_pre k env m
  rw [e, wfe_flag]
  by_cases h0 : (env m.now).isSome
  · have h1 : (wfe k env m0).EVENTS_VALRDY = 1 :=
      tick_latched k env m0 (by rw [hr0, hr]) (by rw [hn]; exact h0)
    rcases tick_flag k env (wfe k env m0) with h2 | h2
    · rw [h2, h1]
    · exact h2
  · have h1 : (env (m.now + 1)).isSome := by
      rcases he with he | he
      · exact absurd he h0
      · exact he
    have hnone : env m0.now = none := by
      rw [hn]; simpa using h0
    apply tick_latched
    · rw [wfe_running, tick_idle k env m0 hnone]; simp [hr0, hr]
    · rw [wfe_now, hn]; exact h1

end Spin

/-! ## The wait loop -/

section Wait

variable (k : Header) (env : Env)

theorem wait_valrdy_zero (m : Machine) : wait_valrdy k env 0 m = none := rfl

theorem wait_valrdy_set (fuel : Nat) (m : Machine) (h : m.EVENTS_VALRDY ≠ 0) :
    wait_valrdy k env (fuel + 1) m = some (rd .EVENTS_VALRDY m).2 := by
  simp [wait_valrdy, Machine.get, h]

theorem wait_valrdy_unset (fuel : Nat) (m : Machine) (h : m.EVENTS_VALRDY = 0) :
    wait_valrdy k env (fuel + 1) m = wait_valrdy k env fuel (spin k env (rd .EVENTS_VALRDY m).2) := by
  simp [wait_valrdy, Machine.get, h]

/-- Induction along the tests of the flag made by a wait loop that ends. -/
theorem wait_valrdy_induct (P : Machine → Machine → Prop)
    (hset : ∀ m, m.EVENTS_VALRDY ≠ 0 → P m (rd .EVENTS_VALRDY m).2)
    (hunset : ∀ m m1, m.EVENTS_VALRDY = 0 → P (spin k env (rd .EVENTS_VALRDY m).2) m1 → P m m1) :
    ∀ fuel m m1, wait_valrdy k env fuel m = some m1 → P m m1 := by
  intro fuel
  induction fuel with
  | zero => intro m m1 h; simp [wait_valrdy_zero] at h
  | succ fuel ih =>
    intro m m1 h
    by_cases hf : m.EVENTS_VALRDY = 0
    · rw [wait_valrdy_unset k env fuel m hf] at h
      exact hunset m m1 hf (ih _ _ h)
    · rw [wait_valrdy_set k env fuel m hf] at h
      cases h
      exact hset m hf

/-- More fuel does not change the result of a wait loop that ends. -/
theorem wait_valrdy_mono : ∀ (fuel fuel1 : Nat) (m m1 : Machine),
    wait_valrdy k env fuel m = some m1 → fuel ≤ fuel1 → wait_valrdy k env fuel1 m = some m1 := by
  intro fuel
  induction fuel with
  | zero => intro fuel1 m m1 h; simp [wait_valrdy_zero] at h
  | succ fuel ih =>
    intro fuel1 m m1 h hle
    obtain ⟨g, rfl⟩ : ∃ g, fuel1 = g + 1 := ⟨fuel1 - 1, by omega⟩
    by_cases hf : m.EVENTS_VALRDY = 0
    · rw [wait_valrdy_unset k env _ m hf] at h ⊢
      exact ih g _ _ h (by omega)
    · rw [wait_valrdy_set k env _ m hf] at h ⊢
      exact h

/-- A stopped generator never sets the flag: the wait loop does not end. -/
theorem wait_valrdy_stopped : ∀ (fuel : Nat) (m : Machine), m.running = false →
    m.EVENTS_VALRDY = 0 → wait_valrdy k env fuel m = none := by
  intro fuel
  induction fuel with
  | zero => intro m _ _; rfl
  | succ fuel ih =>
    intro m hr hf
    rw [wait_valrdy_unset k env fuel m hf]
    obtain ⟨h1, h2, -, -⟩ := spin_stopped k env (rd .EVENTS_VALRDY m).2 (by simpa using hr)
    exact ih _ h1 (by rw [h2]; simpa using hf)

/-- A running generator whose event stream completes a value within the next
`d` ticks ends the wait loop. -/
theorem wait_valrdy_returns : ∀ (d : Nat) (m : Machine), m.running = true →
    (∃ t, m.now ≤ t ∧ t < m.now + d ∧ (env t).isSome) →
    ∃ fuel m1, wait_valrdy k env fuel m = some m1 := by
  intro d
  induction d using Nat.strong_induction_on with
  | _ d ih =>
    intro m hr ⟨t, h1, h2, h3⟩
    by_cases hf : m.EVENTS_VALRDY = 0
    · by_cases he : (env m.now).isSome ∨ (env (m.now + 1)).isSome
      · refine ⟨2, (rd .EVENTS_VALRDY (spin k env (rd .EVENTS_VALRDY m).2)).2, ?_⟩
        rw [wait_valrdy_unset k env 1 m hf]
        apply wait_valrdy_set
        rw [spin_latched k env _ (by simpa using hr) (by simpa using he)]
        exact one_ne_zero
      · have h0 : env m.now = none := by
          simpa using fun h => he (Or.inl h)
        have h1n : env (m.now + 1) = none := by
          simpa using fun h => he (Or.inr h)
        have ht : m.now + 2 ≤ t := by
          by_contra hlt
          have : t = m.now ∨ t = m.now + 1 := by omega
          rcases this with rfl | rfl
          · simp [h0] at h3
          · simp [h1n] at h3
        obtain ⟨hq, -, -, -⟩ := spin_quiet k env (rd .EVENTS_VALRDY m).2
          (by simpa using h0) (by simpa using h1n)
        obtain ⟨fuel, m1, hw⟩ := ih (d - 2) (by omega) (spin k env (rd .EVENTS_VALRDY m).2)
          (by rw [hq]; simpa using hr)
          ⟨t, by simpa using ht, by simp; omega, h3⟩
        exact ⟨fuel + 1, m1, by rw [wait_valrdy_unset k env fuel m hf]; exact hw⟩
    · exact ⟨1, _, wait_valrdy_set k env 0 m hf⟩

/-- A wait loop that ends has seen the flag set. -/
theorem wait_valrdy_flag (fuel : Nat) (m m1 : Machine)
    (h : wait_valrdy k env fuel m = some m1) : m1.EVENTS_VALRDY ≠ 0 := by
  refine wait_valrdy_induct k env (fun _ m1 => m1.EVENTS_VALRDY ≠ 0) ?_ ?_ fuel m m1 h
  · intro m hf; simpa using hf
  · intro m m1 _ ih; exact ih

/-- The wait loop leaves the RNG configuration registers alone. -/
theorem wait_valrdy_frame (fuel : Nat) (m m1 : Machine)
    (h : wait_valrdy k env fuel m = some m1) :
    m1.POWER = m.POWER ∧ m1.CONFIG = m.CONFIG ∧ m1.INTENSET = m.INTENSET ∧
      m1.SHORTS = m.SHORTS := by
  refine wait_valrdy_induct k env (fun m m1 => m1.POWER = m.POWER ∧ m1.CONFIG = m.CONFIG ∧
    m1.INTENSET = m.INTENSET ∧ m1.SHORTS = m.SHORTS) ?_ ?_ fuel m m1 h
  · intro m _; simp
  · intro m m1 _ ih; simpa using ih

/-- The log of a wait loop that ends: `j` unsuccessful tests of the flag, each
followed by the body of the loop, then the test that finds the flag set. -/
theorem wait_valrdy_log (fuel : Nat) (m m1 : Machine)
    (h : wait_valrdy k env fuel m = some m1) :
    ∃ j, m1.log = m.log ++ spinLog k m.SCR j ++ [Access.rd .EVENTS_VALRDY m1.EVENTS_VALRDY] ∧
      m1.now = m.now + 2 * j := by
  refine wait_valrdy_induct k env (fun m m1 => ∃ j,
    m1.log = m.log ++ spinLog k m.SCR j ++ [Access.rd .EVENTS_VALRDY m1.EVENTS_VALRDY] ∧
      m1.now = m.now + 2 * j) ?_ ?_ fuel m m1 h
  · intro m _
    exact ⟨0, by simp [spinLog, Machine.get], by simp⟩
  · intro m m1 hf ⟨j, h1, h2⟩
    refine ⟨j + 1, ?_, ?_⟩
    · rw [h1]; simp [spinLog, Machine.get, hf]
    · rw [h2]; simp; omega

/-- The wait loop never starts the generator; with the shortcut clear it leaves
the generator as it is, and with the shortcut set a wait entered with the flag
unset ends with the generator stopped. -/
theorem wait_valrdy_running (fuel : Nat) (m m1 : Machine)
    (h : wait_valrdy k env fuel m = some m1) :
    (m1.running = true → m.running = true) ∧
      (m.SHORTS &&& k.RNG_SHORTS_VALRDY_STOP_Msk = 0 → m1.running = m.running) ∧
      (m.SHORTS &&& k.RNG_SHORTS_VALRDY_STOP_Msk ≠ 0 → m.EVENTS_VALRDY = 0 →
        m1.running = false) := by
  refine wait_valrdy_induct k env (fun m m1 => (m1.running = true → m.running = true) ∧
      (m.SHORTS &&& k.RNG_SHORTS_VALRDY_STOP_Msk = 0 → m1.running = m.running) ∧
      (m.SHORTS &&& k.RNG_SHORTS_VALRDY_STOP_Msk ≠ 0 → m.EVENTS_VALRDY = 0 →
        m1.running = false)) ?_ ?_ fuel m m1 h
  · intro m hf
    exact ⟨fun h => by simpa using h, fun _ => by simp, fun _ h0 => absurd h0 hf⟩
  · intro m m1 hf ⟨ih1, ih2, ih3⟩
    have hle := spin_running_le k env (rd .EVENTS_VALRDY m).2
    refine ⟨fun h => by simpa using hle (ih1 h), fun hc => ?_, fun hs _ => ?_⟩
    · rw [ih2 (by simpa using hc), spin_running_clear k env _ (by simpa using hc)]
      simp
    · by_cases h2 : (spin k env (rd .EVENTS_VALRDY m).2).EVENTS_VALRDY = 0
      · exact ih3 (by simpa using hs) h2
      · have hstop := spin_stops k env (rd .EVENTS_VALRDY m).2 (by simpa using hs)
          (by simpa [hf] using h2)
        by_contra hne
        have := ih1 (by simpa using hne)
        rw [hstop] at this
        exact absurd this (by simp)

end Wait

/-! ## The harvest loop -/

section Loop

variable (k : Header) (env : Env)

theorem drain_eq (i : Nat) (buf : List Nat) (m : Machine) :
    drain k i buf m = (buf.set i (m.VALUE % 256),
      { m with
        EVENTS_VALRDY := 0
        pending := m.pending.filter (fun j => j != k.RNG_IRQn)
        log := m.log ++ [Access.rd .VALUE m.VALUE, Access.wr .EVENTS_VALRDY 0,
          Access.nvicClearPending k.RNG_IRQn] }) := by
  simp [drain, wr, nvicClearPending, Machine.put, Machine.get]

theorem write_iter_eq (fuel i : Nat) (buf buf1 : List Nat) (m m1 : Machine)
    (h : write_iter k env fuel i buf m = some (buf1, m1)) :
    ∃ mw, wait_valrdy k env fuel m = some mw ∧ drain k i buf mw = (buf1, m1) := by
  unfold write_iter at h
  cases hw : wait_valrdy k env fuel m with
  | none => simp [hw] at h
  | some mw => exact ⟨mw, rfl, by simpa [hw] using h⟩

theorem write_loop_zero (fuel i : Nat) (buf : List Nat) (m : Machine) :
    write_loop k env fuel 0 i buf m = some (buf, m) := rfl

theorem write_loop_succ (fuel cnt i : Nat) (buf : List Nat) (m : Machine) :
    write_loop k env fuel (cnt + 1) i buf m =
      match write_iter k env fuel i buf m with
      | none => none
      | some (buf, m) => write_loop k env fuel cnt (i + 1) buf m := rfl

/-- A `for` loop that ends splits into a first iteration and the rest. -/
theorem write_loop_split (fuel cnt i : Nat) (buf buf1 : List Nat) (m m1 : Machine)
    (h : write_loop k env fuel (cnt + 1) i buf m = some (buf1, m1)) :
    ∃ mw, wait_valrdy k env fuel m = some mw ∧
      write_loop k env fuel cnt (i + 1) (drain k i buf mw).1 (drain k i buf mw).2 =
        some (buf1, m1) := by
  rw [write_loop_succ] at h
  cases hi : write_iter k env fuel i buf m with
  | none => simp [hi] at h
  | some r =>
    obtain ⟨buf2, m2⟩ := r
    obtain ⟨mw, hw, hd⟩ := write_iter_eq k env fuel i buf buf2 m m2 hi
    refine ⟨mw, hw, ?_⟩
    rw [hd]
    simpa [hi] using h

theorem set_take_drop (buf : List Nat) (i x c : Nat) (vals : List Nat) (h : i < buf.length) :
    (buf.set i x).take (i + 1) ++ vals ++ (buf.set i x).drop (i + 1 + c) =
      buf.take i ++ (x :: vals) ++ buf.drop (i + (c + 1)) := by
  have h1 : (buf.set i x).take (i + 1) = buf.take i ++ [x] := by
    rw [List.take_succ]
    congr 1
    · apply List.ext_getElem?
      intro p
      simp only [List.getElem?_take]
      split
      · rw [List.getElem?_set_ne (by omega)]
      · rfl
    · simp [h]
  have h2 : (buf.set i x).drop (i + 1 + c) = buf.drop (i + (c + 1)) := by
    rw [List.drop_set_of_lt _ _ (by omega)]
    congr 1
    omega
  rw [h1, h2]
  simp

/-- The log and the buffer of a `for` loop that ends: one harvest per
iteration, and the low bytes of the drained values stored from index `i` on. -/
theorem write_loop_log (fuel : Nat) : ∀ (cnt i : Nat) (buf buf1 : List Nat) (m m1 : Machine),
    write_loop k env fuel cnt i buf m = some (buf1, m1) →
    ∃ hs : List Harvest, hs.length = cnt ∧ m1.log = m.log ++ loopLog k hs ∧
      (i + cnt ≤ buf.length →
        buf1 = buf.take i ++ hs.map (fun h => h.value % 256) ++ buf.drop (i + cnt)) := by
  intro cnt
  induction cnt with
  | zero =>
    intro i buf buf1 m m1 h
    rw [write_loop_zero] at h
    cases h
    exact ⟨[], rfl, by simp [loopLog], fun _ => by simp⟩
  | succ cnt ih =>
    intro i buf buf1 m m1 h
    obtain ⟨mw, hw, hrest⟩ := write_loop_split k env fuel cnt i buf buf1 m m1 h
    obtain ⟨hs, hlen, hlog, hbuf⟩ := ih _ _ _ _ _ hrest
    obtain ⟨j, hwl, -⟩ := wait_valrdy_log k env fuel m mw hw
    have hfl := wait_valrdy_flag k env fuel m mw hw
    obtain ⟨f, hf⟩ : ∃ f, mw.EVENTS_VALRDY = f + 1 := ⟨mw.EVENTS_VALRDY - 1, by omega⟩
    refine ⟨⟨m.SCR, j, f, mw.VALUE⟩ :: hs, by simp [hlen], ?_, ?_⟩
    · rw [hlog, drain_eq]
      simp [hwl, hf, loopLog, iterLog]
    · intro hle
      rw [hbuf (by rw [drain_eq]; simp; omega), drain_eq]
      simpa using set_take_drop buf i (mw.VALUE % 256) cnt _ (by omega)

/-- The `for` loop leaves the RNG configuration registers alone. -/
theorem write_loop_frame (fuel : Nat) : ∀ (cnt i : Nat) (buf buf1 : List Nat) (m m1 : Machine),
    write_loop k env fuel cnt i buf m = some (buf1, m1) →
    m1.POWER = m.POWER ∧ m1.CONFIG = m.CONFIG ∧ m1.INTENSET = m.INTENSET ∧
      m1.SHORTS = m.SHORTS := by
  intro cnt
  induction cnt with
  | zero =>
    intro i buf buf1 m m1 h
    rw [write_loop_zero] at h
    cases h
    simp
  | succ cnt ih =>
    intro i buf buf1 m m1 h
    obtain ⟨mw, hw, hrest⟩ := write_loop_split k env fuel cnt i buf buf1 m m1 h
    obtain ⟨h1, h2, h3, h4⟩ := ih _ _ _ _ _ hrest
    obtain ⟨w1, w2, w3, w4⟩ := wait_valrdy_frame k env fuel m mw hw
    rw [drain_eq] at h1 h2 h3 h4
    exact ⟨h1.trans w1, h2.trans w2, h3.trans w3, h4.trans w4⟩

/-- After every iteration of the `for` loop, and so at its end when it made
one, the flag is unset and the RNG line is not pending. -/
theorem write_loop_flag (fuel : Nat) : ∀ (cnt i : Nat) (buf buf1 : List Nat) (m m1 : Machine),
    write_loop k env fuel cnt i buf m = some (buf1, m1) → 0 < cnt →
    m1.EVENTS_VALRDY = 0 ∧ k.RNG_IRQn ∉ m1.pending := by
  intro cnt
  induction cnt with
  | zero => intro i buf buf1 m m1 _ h; omega
  | succ cnt ih =>
    intro i buf buf1 m m1 h _
    obtain ⟨mw, hw, hrest⟩ := write_loop_split k env fuel cnt i buf buf1 m m1 h
    rcases Nat.eq_zero_or_pos cnt with rfl | hpos
    · rw [write_loop_zero] at hrest
      cases hrest
      rw [drain_eq]
      simp
    · exact ih _ _ _ _ _ hrest hpos

/-- The `for` loop never starts the generator; with the shortcut clear it leaves
the generator as it is, and with the shortcut set a loop entered with the flag
unset that makes an iteration ends with the generator stopped. -/
theorem write_loop_running (fuel : Nat) : ∀ (cnt i : Nat) (buf buf1 : List Nat)
    (m m1 : Machine), write_loop k env fuel cnt i buf m = some (buf1, m1) →
    (m1.running = true → m.running = true) ∧
      (m.SHORTS &&& k.RNG_SHORTS_VALRDY_STOP_Msk = 0 → m1.running = m.running) ∧
      (m.SHORTS &&& k.RNG_SHORTS_VALRDY_STOP_Msk ≠ 0 → m.EVENTS_VALRDY = 0 → 0 < cnt →
        m1.running = false) := by
  intro cnt
  induction cnt with
  | zero =>
    intro i buf buf1 m m1 h
    rw [write_loop_zero] at h
    cases h
    exact ⟨id, fun _ => rfl, fun _ _ h => absurd h (by omega)⟩
  | succ cnt ih =>
    intro i buf buf1 m m1 h
    obtain ⟨mw, hw, hrest⟩ := write_loop_split k env fuel cnt i buf buf1 m m1 h
    obtain ⟨h1, h2, -⟩ := ih _ _ _ _ _ hrest
    obtain ⟨w1, w2, w3⟩ := wait_valrdy_running k env fuel m mw hw
    obtain ⟨-, -, -, ws⟩ := wait_valrdy_frame k env fuel m mw hw
    rw [drain_eq] at h1 h2
    refine ⟨fun h => w1 (h1 h), fun hc => ?_, fun hs hf _ => ?_⟩
    · rw [h2 (by simpa [ws] using hc)]
      exact w2 hc
    · by_contra hne
      have := h1 (by simpa using hne)
      rw [show mw.running = false from w3 hs hf] at this
      exact absurd this (by simp)

/-- More fuel does not change the result of a `for` loop that ends. -/
theorem write_loop_mono (fuel fuel1 : Nat) (hle : fuel ≤ fuel1) :
    ∀ (cnt i : Nat) (buf : List Nat) (m : Machine) (r : List Nat × Machine),
    write_loop k env fuel cnt i buf m = some r → write_loop k env fuel1 cnt i buf m = some r := by
  intro cnt
  induction cnt with
  | zero => intro i buf m r h; exact h
  | succ cnt ih =>
    intro i buf m r h
    obtain ⟨buf1, m1⟩ := r
    obtain ⟨mw, hw, hrest⟩ := write_loop_split k env fuel cnt i buf buf1 m m1 h
    rw [write_loop_succ]
    simp only [write_iter, wait_valrdy_mono k env fuel fuel1 m mw hw hle]
    exact ih _ _ _ _ hrest

/-- With a running generator and an event stream that keeps completing
values, the `for` loop ends, provided the shortcut is clear or at most one
iteration is left. -/
theorem write_loop_returns (henv : Productive env) : ∀ (cnt i : Nat) (buf : List Nat)
    (m : Machine), m.running = true →
    (cnt ≤ 1 ∨ m.SHORTS &&& k.RNG_SHORTS_VALRDY_STOP_Msk = 0) →
    ∃ fuel r, write_loop k env fuel cnt i buf m = some r := by
  intro cnt
  induction cnt with
  | zero => intro i buf m _ _; exact ⟨0, _, rfl⟩
  | succ cnt ih =>
    intro i buf m hr hc
    obtain ⟨t, ht, hsome⟩ := henv m.now
    obtain ⟨f1, mw, hw⟩ := wait_valrdy_returns k env (t + 1 - m.now) m hr
      ⟨t, ht, by omega, hsome⟩
    have hrest : ∃ f2 r, write_loop k env f2 cnt (i + 1) (drain k i buf mw).1
        (drain k i buf mw).2 = some r := by
      rcases Nat.eq_zero_or_pos cnt with rfl | hpos
      · exact ⟨0, _, rfl⟩
      · have hclear : m.SHORTS &&& k.RNG_SHORTS_VALRDY_STOP_Msk = 0 := by
          rcases hc with hc | hc
          · omega
          · exact hc
        obtain ⟨-, w2, -⟩ := wait_valrdy_running k env f1 m mw hw
        obtain ⟨-, -, -, ws⟩ := wait_valrdy_frame k env f1 m mw hw
        apply ih
        · rw [drain_eq]; simp [w2 hclear, hr]
        · right; rw [drain_eq]; simpa [ws] using hclear
    obtain ⟨f2, r, h2⟩ := hrest
    refine ⟨max f1 f2, r, ?_⟩
    rw [write_loop_succ]
    simp only [write_iter, wait_valrdy_mono k env f1 (max f1 f2) m mw hw (le_max_left _ _)]
    exact write_loop_mono k env f2 (max f1 f2) (le_max_right _ _) _ _ _ _ _ h2

/-- With a stopped generator and the flag unset, a `for` loop with an iteration
to make does not end. -/
theorem write_loop_stopped (fuel cnt i : Nat) (buf : List Nat) (m : Machine)
    (hr : m.running = false) (hf : m.EVENTS_VALRDY = 0) :
    write_loop k env fuel (cnt + 1) i buf m = none := by
  rw [write_loop_succ]
  simp [write_iter, wait_valrdy_stopped k env fuel m hr hf]

end Loop

/-! ## `rng_lld_write` -/

section Write

variable (k : Header) (env : Env)

theorem armed_one (m : Machine) :
    armed k 1 m = { m with
      SHORTS := m.SHORTS ||| k.RNG_SHORTS_VALRDY_STOP_Msk
      EVENTS_VALRDY := 0
      log := m.log ++ [Access.rd .SHORTS m.SHORTS,
        Access.wr .SHORTS (m.SHORTS ||| k.RNG_SHORTS_VALRDY_STOP_Msk),
        Access.wr .EVENTS_VALRDY 0] } := by
  simp [armed, wr, Machine.put, Machine.get]

theorem armed_many (n : Nat) (m : Machine) (h : n ≠ 1) :
    armed k n m = { m with
      EVENTS_VALRDY := 0
      log := m.log ++ [Access.wr .EVENTS_VALRDY 0] } := by
  simp [armed, wr, Machine.put, h]

@[simp] theorem armed_flag (n : Nat) (m : Machine) : (armed k n m).EVENTS_VALRDY = 0 := by
  by_cases h : n = 1
  · subst h; rw [armed_one]
  · rw [armed_many k n m h]

@[simp] theorem armed_running (n : Nat) (m : Machine) : (armed k n m).running = m.running := by
  by_cases h : n = 1
  · subst h; rw [armed_one]
  · rw [armed_many k n m h]

theorem rng_lld_write_zero (fuel : Nat) (rngp : RNGDriver) (buf : List Nat) (timeout : Nat)
    (m : Machine) :
    rng_lld_write k env fuel rngp buf 0 timeout m = some (msg_t.MSG_OK, buf, m) := rfl

theorem rng_lld_write_pos (fuel : Nat) (rngp : RNGDriver) (buf : List Nat) (n timeout : Nat)
    (m : Machine) (h : n ≠ 0) :
    rng_lld_write k env fuel rngp buf n timeout m =
      match write_loop k env fuel n 0 buf (armed k n m) with
      | none => none
      | some (buf, m) => some (msg_t.MSG_OK, buf, m) := by
  simp [rng_lld_write, armed, h]

/-- A call of `rng_lld_write` with `n` not zero that returns is a `for` loop
from the armed machine that ends, and it returns `MSG_OK`. -/
theorem rng_lld_write_some (fuel : Nat) (rngp : RNGDriver) (buf buf1 : List Nat)
    (n timeout : Nat) (m m1 : Machine) (r : msg_t) (hn : n ≠ 0)
    (h : rng_lld_write k env fuel rngp buf n timeout m = some (r, buf1, m1)) :
    r = msg_t.MSG_OK ∧ write_loop k env fuel n 0 buf (armed k n m) = some (buf1, m1) := by
  rw [rng_lld_write_pos k env fuel rngp buf n timeout m hn] at h
  cases hl : write_loop k env fuel n 0 buf (armed k n m) with
  | none => simp [hl] at h
  | some q =>
    obtain ⟨b, m2⟩ := q
    simp only [hl, Option.some.injEq, Prod.mk.injEq] at h
    obtain ⟨h1, h2, h3⟩ := h
    subst h1 h2 h3
    exact ⟨rfl, rfl⟩

/-- With a stopped generator a call with `n` not zero never returns. -/
theorem rng_lld_write_stopped (fuel : Nat) (rngp : RNGDriver) (buf : List Nat)
    (n timeout : Nat) (m : Machine) (hn : n ≠ 0) (hr : m.running = false) :
    rng_lld_write k env fuel rngp buf n timeout m = none := by
  rw [rng_lld_write_pos k env fuel rngp buf n timeout m hn]
  obtain ⟨c, rfl⟩ : ∃ c, n = c + 1 := ⟨n - 1, by omega⟩
  rw [write_loop_stopped k env fuel c 0 buf _ (by simpa using hr) (by simp)]

/-- With a running generator and an event stream that keeps completing values,
a call returns, provided `n` is at most 1 or the shortcut is clear. -/
theorem rng_lld_write_returns (henv : Productive env) (rngp : RNGDriver) (buf : List Nat)
    (n timeout : Nat) (m : Machine) (hr : m.running = true)
    (hc : n ≤ 1 ∨ m.SHORTS &&& k.RNG_SHORTS_VALRDY_STOP_Msk = 0) :
    ∃ fuel buf1 m1, rng_lld_write k env fuel rngp buf n timeout m =
      some (msg_t.MSG_OK, buf1, m1) := by
  by_cases hn : n = 0
  · subst hn; exact ⟨0, buf, m, rfl⟩
  · have hc1 : n ≤ 1 ∨ (armed k n m).SHORTS &&& k.RNG_SHORTS_VALRDY_STOP_Msk = 0 := by
      by_cases h1 : n = 1
      · exact Or.inl (by omega)
      · rcases hc with hc | hc
        · exact Or.inl hc
        · right; rw [armed_many k n m h1]; exact hc
    obtain ⟨fuel, q, hq⟩ := write_loop_returns k env henv n 0 buf (armed k n m)
      (by simpa using hr) hc1
    obtain ⟨b, m2⟩ := q
    exact ⟨fuel, b, m2, by rw [rng_lld_write_pos k env fuel rngp buf n timeout m hn, hq]⟩

end Write

/-! ## The shape of the log -/

section Log

variable (k : Header)

@[simp] theorem keyEvents_append (l1 l2 : List Access) :
    keyEvents (l1 ++ l2) = keyEvents l1 ++ keyEvents l2 := by
  simp [keyEvents]

@[simp] theorem valueReads_append (l1 l2 : List Access) :
    valueReads (l1 ++ l2) = valueReads l1 ++ valueReads l2 := by
  simp [valueReads]

@[simp] theorem flagClears_append (l1 l2 : List Access) :
    flagClears (l1 ++ l2) = flagClears l1 + flagClears l2 := by
  simp [flagClears]

@[simp] theorem accessesTo_append (r : Reg) (l1 l2 : List Access) :
    accessesTo r (l1 ++ l2) = accessesTo r l1 ++ accessesTo r l2 := by
  simp [accessesTo]

theorem spinLog_quiet : ∀ (j scr : Nat), keyEvents (spinLog k scr j) = [] ∧
    valueReads (spinLog k scr j) = [] ∧ flagClears (spinLog k scr j) = 0 ∧
    accessesTo .SHORTS (spinLog k scr j) = [] := by
  intro j
  induction j with
  | zero => intro scr; simp [spinLog, keyEvents, valueReads, flagClears, accessesTo]
  | succ j ih =>
    intro scr
    obtain ⟨h1, h2, h3, h4⟩ := ih (scr ||| k.SCB_SCR_SEVONPEND_Msk)
    simp only [spinLog, keyEvents_append, valueReads_append, flagClears_append,
      accessesTo_append, h1, h2, h3, h4]
    simp [keyEvents, keyOf, valueReads, valueOf, flagClears, accessesTo, touches]

theorem iterLog_shape (h : Harvest) : keyEvents (iterLog k h) = [Key.observe, Key.drain, Key.clear] ∧
    valueReads (iterLog k h) = [h.value] ∧ flagClears (iterLog k h) = 1 ∧
    accessesTo .SHORTS (iterLog k h) = [] := by
  obtain ⟨h1, h2, h3, h4⟩ := spinLog_quiet k h.spins h.scr
  simp only [iterLog, keyEvents_append, valueReads_append, flagClears_append,
    accessesTo_append, h1, h2, h3, h4]
  simp [keyEvents, keyOf, valueReads, valueOf, flagClears, accessesTo, touches]

theorem loopLog_shape : ∀ hs : List Harvest, keyEvents (loopLog k hs) = keyPattern hs.length ∧
    valueReads (loopLog k hs) = hs.map (fun h => h.value) ∧
    flagClears (loopLog k hs) = hs.length ∧ accessesTo .SHORTS (loopLog k hs) = [] := by
  intro hs
  induction hs with
  | nil => simp [loopLog, keyEvents, valueReads, flagClears, accessesTo, keyPattern]
  | cons h hs ih =>
    obtain ⟨h1, h2, h3, h4⟩ := ih
    obtain ⟨i1, i2, i3, i4⟩ := iterLog_shape k h
    simp only [loopLog, keyEvents_append, valueReads_append, flagClears_append,
      accessesTo_append, h1, h2, h3, h4, i1, i2, i3, i4]
    simp [keyPattern]
    omega

end Log

/-! ## The log and the buffer of a call -/

section WriteLog

variable (k : Header) (env : Env)

theorem armed_log (n : Nat) (m : Machine) :
    (armed k n m).log = m.log ++ armLog k n m.SHORTS := by
  by_cases h : n = 1
  · subst h; rw [armed_one]; simp [armLog]
  · rw [armed_many k n m h]; simp [armLog, h]

theorem armed_SHORTS (n : Nat) (m : Machine) :
    (armed k n m).SHORTS =
      if n = 1 then m.SHORTS ||| k.RNG_SHORTS_VALRDY_STOP_Msk else m.SHORTS := by
  by_cases h : n = 1
  · subst h; rw [armed_one]; simp
  · rw [armed_many k n m h]; simp [h]

theorem armLog_shape (n shorts : Nat) :
    keyEvents (armLog k n shorts) = [Key.clear] ∧ valueReads (armLog k n shorts) = [] ∧
      flagClears (armLog k n shorts) = 1 ∧
      (n ≠ 1 → accessesTo .SHORTS (armLog k n shorts) = []) := by
  by_cases h : n = 1 <;>
    simp [armLog, h, keyEvents, keyOf, valueReads, valueOf, flagClears, accessesTo, touches]

/-- The log and the buffer of a call with `n` not zero that returns. -/
theorem rng_lld_write_log (fuel : Nat) (rngp : RNGDriver) (buf buf1 : List Nat)
    (n timeout : Nat) (m m1 : Machine) (r : msg_t) (hn : n ≠ 0)
    (h : rng_lld_write k env fuel rngp buf n timeout m = some (r, buf1, m1)) :
    ∃ hs : List Harvest, hs.length = n ∧
      m1.log = m.log ++ armLog k n m.SHORTS ++ loopLog k hs ∧
      (n ≤ buf.length → buf1 = hs.map (fun h => h.value % 256) ++ buf.drop n) := by
  obtain ⟨-, hl⟩ := rng_lld_write_some k env fuel rngp buf buf1 n timeout m m1 r hn h
  obtain ⟨hs, hlen, hlog, hbuf⟩ := write_loop_log k env fuel n 0 buf buf1 _ m1 hl
  refine ⟨hs, hlen, by rw [hlog, armed_log], fun hle => ?_⟩
  simpa using hbuf (by omega)

/-- The registers a call leaves alone, and SHORTS after it. -/
theorem rng_lld_write_frame (fuel : Nat) (rngp : RNGDriver) (buf buf1 : List Nat)
    (n timeout : Nat) (m m1 : Machine) (r : msg_t)
    (h : rng_lld_write k env fuel rngp buf n timeout m = some (r, buf1, m1)) :
    m1.POWER = m.POWER ∧ m1.CONFIG = m.CONFIG ∧ m1.INTENSET = m.INTENSET ∧
      m1.SHORTS = if n = 1 then m.SHORTS ||| k.RNG_SHORTS_VALRDY_STOP_Msk else m.SHORTS := by
  by_cases hn : n = 0
  · subst hn
    rw [rng_lld_write_zero] at h
    simp only [Option.some.injEq, Prod.mk.injEq] at h
    obtain ⟨-, -, rfl⟩ := h
    simp
  · obtain ⟨-, hl⟩ := rng_lld_write_some k env fuel rngp buf buf1 n timeout m m1 r hn h
    obtain ⟨h1, h2, h3, h4⟩ := write_loop_frame k env fuel n 0 buf buf1 _ m1 hl
    rw [armed_SHORTS] at h4
    refine ⟨h1.trans ?_, h2.trans ?_, h3.trans ?_, h4⟩ <;>
      (by_cases h1 : n = 1
       · subst h1; rw [armed_one]
       · rw [armed_many k n m h1])

theorem steady_productive : Productive steady :=
  fun t => ⟨t, le_refl t, rfl⟩

theorem slow_productive : Productive slow := by
  intro t
  refine ⟨3 * t + 2, by omega, ?_⟩
  have h : (3 * t + 2) % 3 = 2 := by omega
  simp [slow, h]

end WriteLog

/-! ## Start, stop and sequences of calls -/

section Calls
variable (k : Header) (env : Env)

/-- A `for` loop of `a + b` iterations is one of `a` iterations followed by one of `b`. -/
theorem write_loop_add (fuel : Nat) (b : Nat) : ∀ (a i : Nat) (buf : List Nat) (m : Machine),
    write_loop k env fuel (a + b) i buf m =
      match write_loop k env fuel a i buf m with
      | none => none
      | some (buf1, m1) => write_loop k env fuel b (i + a) buf1 m1 := by
  intro a
  induction a with
  | zero => intro i buf m; simp [write_loop_zero]
  | succ a ih =>
    intro i buf m
    rw [show a + 1 + b = (a + b) + 1 by omega, write_loop_succ, write_loop_succ]
    cases hi : write_iter k env fuel i buf m with
    | none => rfl
    | some q =>
      obtain ⟨b2, m2⟩ := q
      simp only []
      rw [ih (i + 1) b2 m2]
      cases write_loop k env fuel a (i + 1) b2 m2 with
      | none => rfl
      | some q2 =>
        obtain ⟨b3, m3⟩ := q2
        simp only []
        congr 1
        omega

/-- The result of `rng_lld_start`, in closed form. -/
theorem rng_lld_start_eq (rngp : RNGDriver) (m : Machine) :
    rng_lld_start k rngp m =
      ({ config := some (rngp.config.getD default_config) },
        { m with
          POWER := 1
          CONFIG := if (rngp.config.getD default_config).digital_error_correction then
              m.CONFIG ||| k.RNG_CONFIG_DERCEN_Msk
            else andNot32 m.CONFIG k.RNG_CONFIG_DERCEN_Msk
          INTENSET := k.RNG_INTENSET_VALRDY_Msk
          running := true
          log := m.log ++ [Access.wr .POWER 1, Access.rd .CONFIG m.CONFIG,
            Access.wr .CONFIG (if (rngp.config.getD default_config).digital_error_correction then
              m.CONFIG ||| k.RNG_CONFIG_DERCEN_Msk
            else andNot32 m.CONFIG k.RNG_CONFIG_DERCEN_Msk),
            Access.wr .INTENSET k.RNG_INTENSET_VALRDY_Msk, Access.wr .TASKS_START 1] }) := by
  obtain ⟨cfg⟩ := rngp
  cases cfg with
  | none => simp [rng_lld_start, default_config, wr, Machine.put, Machine.get]
  | some c =>
    cases hd : c.digital_error_correction <;>
      simp [rng_lld_start, hd, wr, Machine.put, Machine.get]

/-- The machine after `rng_lld_start`. -/
theorem rng_lld_start_state (rngp : RNGDriver) (m : Machine) :
    (rng_lld_start k rngp m).2.running = true ∧ (rng_lld_start k rngp m).2.SHORTS = m.SHORTS ∧
      (rng_lld_start k rngp m).2.POWER = 1 ∧
      (rng_lld_start k rngp m).2.INTENSET = k.RNG_INTENSET_VALRDY_Msk ∧
      (rng_lld_start k rngp m).2.EVENTS_VALRDY = m.EVENTS_VALRDY ∧
      (rng_lld_start k rngp m).2.SCR = m.SCR ∧ (rng_lld_start k rngp m).2.now = m.now := by
  rw [rng_lld_start_eq]
  simp

/-- The machine after `rng_lld_stop`. -/
theorem rng_lld_stop_state (rngp : RNGDriver) (m : Machine) :
    (rng_lld_stop rngp m).2.running = false ∧ (rng_lld_stop rngp m).2.SHORTS = m.SHORTS ∧
      (rng_lld_stop rngp m).2.POWER = 0 ∧ (rng_lld_stop rngp m).2.CONFIG = m.CONFIG ∧
      (rng_lld_stop rngp m).2.INTENSET = m.INTENSET ∧
      (rng_lld_stop rngp m).2.EVENTS_VALRDY = m.EVENTS_VALRDY ∧
      (rng_lld_stop rngp m).2.SCR = m.SCR ∧ (rng_lld_stop rngp m).2.now = m.now := by
  simp [rng_lld_stop, wr, Machine.put]

theorem or_and_mask (x msk : Nat) : (x ||| msk) &&& msk = msk := by
  apply Nat.eq_of_testBit_eq
  intro j
  simp only [Nat.testBit_and, Nat.testBit_or]
  cases x.testBit j <;> cases msk.testBit j <;> rfl

/-- A single-byte call that returns leaves the generator stopped. -/
theorem rng_lld_write_one_stops (fuel : Nat) (rngp : RNGDriver) (buf buf1 : List Nat)
    (timeout : Nat) (m m1 : Machine) (r : msg_t) (hk : k.RNG_SHORTS_VALRDY_STOP_Msk ≠ 0)
    (h : rng_lld_write k env fuel rngp buf 1 timeout m = some (r, buf1, m1)) :
    m1.running = false := by
  obtain ⟨-, hl⟩ := rng_lld_write_some k env fuel rngp buf buf1 1 timeout m m1 r one_ne_zero h
  obtain ⟨-, -, h3⟩ := write_loop_running k env fuel 1 0 buf buf1 _ m1 hl
  apply h3 _ (by simp) (by omega)
  rw [armed_SHORTS, if_pos rfl, or_and_mask]
  exact hk

end Calls

/-! ## Calls on machines alike -/

section Simulation
variable (k : Header) (env1 env2 : Env)

theorem Alike.symm {k : Header} {env1 env2 : Env} {s t : Machine}
    (h : Alike k env1 env2 s t) : Alike k env2 env1 t s :=
  ⟨h.1.symm, h.2.1.symm, h.2.2.1.symm, fun j => (h.2.2.2 j).symm⟩

theorem SameSteps.refl (s t : Machine) : SameSteps s t s t :=
  ⟨[], [], by simp, by simp, rfl⟩

theorem SameSteps.trans {s t s1 t1 s2 t2 : Machine} (h1 : SameSteps s t s1 t1)
    (h2 : SameSteps s1 t1 s2 t2) : SameSteps s t s2 t2 := by
  obtain ⟨a1, a2, ha1, ha2, ha⟩ := h1
  obtain ⟨b1, b2, hb1, hb2, hb⟩ := h2
  refine ⟨a1 ++ b1, a2 ++ b2, by rw [hb1, ha1, List.append_assoc],
    by rw [hb2, ha2, List.append_assoc], ?_⟩
  simp only [exceptScrReads, List.filter_append] at ha hb ⊢
  rw [ha, hb]

/-- A tick keeps two synced machines synced. -/
theorem tick_synced (s t : Machine) (h : Synced k env1 env2 s t) :
    Synced k env1 env2 (tick k env1 s) (tick k env2 t) := by
  obtain ⟨⟨hs, hr, hscr, he⟩, hf, hv⟩ := h
  have he0 : env1 s.now = env2 t.now := by simpa using he 0
  have hnext : ∀ j, env1 (s.now + 1 + j) = env2 (t.now + 1 + j) := fun j => by
    have := he (1 + j)
    simpa [Nat.add_assoc] using this
  by_cases hrun : s.running = true
  · rcases hev : env1 s.now with _ | v
    · rw [tick_idle k env1 s hev, tick_idle k env2 t (by rw [← he0]; exact hev)]
      exact ⟨⟨hs, hr, hscr, hnext⟩, hf, hv⟩
    · rw [tick_latch k env1 s v hrun hev,
        tick_latch k env2 t v (by rw [← hr]; exact hrun) (by rw [← he0]; exact hev)]
      refine ⟨⟨hs, ?_, hscr, hnext⟩, rfl, fun _ => rfl⟩
      simp [latch, hs, hr]
  · have hfalse : s.running = false := by simpa using hrun
    rw [tick_stopped k env1 s hfalse, tick_stopped k env2 t (by rw [← hr]; exact hfalse)]
    exact ⟨⟨hs, hr, hscr, hnext⟩, hf, hv⟩

/-- Being synced does not depend on the logs. -/
theorem synced_log (s t : Machine) (l1 l2 : List Access) (h : Synced k env1 env2 s t) :
    Synced k env1 env2 { s with log := l1 } { t with log := l2 } := h

theorem wfe_synced (s t : Machine) (h : Synced k env1 env2 s t) :
    Synced k env1 env2 (wfe k env1 s) (wfe k env2 t) :=
  tick_synced k env1 env2 s t h

/-- The body of the wait loop keeps two synced machines synced, by the same steps. -/
theorem spin_synced (s t : Machine) (h : Synced k env1 env2 s t) :
    Synced k env1 env2 (spin k env1 s) (spin k env2 t) ∧
      SameSteps s t (spin k env1 s) (spin k env2 t) := by
  constructor
  · rw [spin_eq, spin_eq]
    apply wfe_synced
    apply wfe_synced
    obtain ⟨⟨hs, hr, hscr, he⟩, hf, hv⟩ := h
    refine ⟨⟨hs, hr, ?_, he⟩, hf, hv⟩
    show (s.SCR ||| k.SCB_SCR_SEVONPEND_Msk) ||| k.SCB_SCR_SEVONPEND_Msk =
      (t.SCR ||| k.SCB_SCR_SEVONPEND_Msk) ||| k.SCB_SCR_SEVONPEND_Msk
    rw [hscr]
  · refine ⟨_, _, spin_log k env1 s, spin_log k env2 t, ?_⟩
    simp [exceptScrReads, isScrRead, h.1.2.2.1]

/-- A wait loop that ends on one machine ends on a synced machine, with the
same fuel and by the same steps. -/
theorem wait_valrdy_synced : ∀ (fuel : Nat) (s t s1 : Machine), Synced k env1 env2 s t →
    wait_valrdy k env1 fuel s = some s1 →
    ∃ t1, wait_valrdy k env2 fuel t = some t1 ∧ Synced k env1 env2 s1 t1 ∧
      SameSteps s t s1 t1 := by
  intro fuel
  induction fuel with
  | zero => intro s t s1 _ h; simp [wait_valrdy_zero] at h
  | succ fuel ih =>
    intro s t s1 hsync h
    have hobs : SameSteps s t (rd .EVENTS_VALRDY s).2 (rd .EVENTS_VALRDY t).2 :=
      ⟨_, _, rfl, rfl, by simp [Machine.get, hsync.2.1]⟩
    by_cases hf : s.EVENTS_VALRDY = 0
    · have hft : t.EVENTS_VALRDY = 0 := by rw [← hsync.2.1]; exact hf
      rw [wait_valrdy_unset k env1 fuel s hf] at h
      rw [wait_valrdy_unset k env2 fuel t hft]
      obtain ⟨h1, h2⟩ := spin_synced k env1 env2 (rd .EVENTS_VALRDY s).2 (rd .EVENTS_VALRDY t).2
        (synced_log k env1 env2 s t _ _ hsync)
      obtain ⟨t1, ht1, hs1, hst⟩ := ih _ _ s1 h1 h
      exact ⟨t1, ht1, hs1, (hobs.trans h2).trans hst⟩
    · have hft : t.EVENTS_VALRDY ≠ 0 := by rw [← hsync.2.1]; exact hf
      rw [wait_valrdy_set k env1 fuel s hf] at h
      cases h
      exact ⟨_, wait_valrdy_set k env2 fuel t hft, synced_log k env1 env2 s t _ _ hsync, hobs⟩

/-- Draining keeps two synced machines with the flag set synced, by the same
steps and with the same byte. -/
theorem drain_synced (i : Nat) (buf : List Nat) (s t : Machine) (h : Synced k env1 env2 s t)
    (hf : s.EVENTS_VALRDY ≠ 0) :
    (drain k i buf s).1 = (drain k i buf t).1 ∧
      Synced k env1 env2 (drain k i buf s).2 (drain k i buf t).2 ∧
      SameSteps s t (drain k i buf s).2 (drain k i buf t).2 := by
  obtain ⟨⟨hs, hr, hscr, he⟩, -, hv⟩ := h
  have hval := hv hf
  rw [drain_eq, drain_eq]
  refine ⟨by simp [hval], ⟨⟨hs, hr, hscr, he⟩, rfl, fun h0 => absurd rfl h0⟩,
    ⟨_, _, rfl, rfl, by simp [hval]⟩⟩

/-- A `for` loop that ends on one machine ends on a synced machine, with the
same fuel, the same buffer and by the same steps. -/
theorem write_loop_synced (fuel : Nat) : ∀ (cnt i : Nat) (buf buf1 : List Nat)
    (s t s1 : Machine), Synced k env1 env2 s t →
    write_loop k env1 fuel cnt i buf s = some (buf1, s1) →
    ∃ t1, write_loop k env2 fuel cnt i buf t = some (buf1, t1) ∧ Synced k env1 env2 s1 t1 ∧
      SameSteps s t s1 t1 := by
  intro cnt
  induction cnt with
  | zero =>
    intro i buf buf1 s t s1 hsync h
    rw [write_loop_zero] at h
    simp only [Option.some.injEq, Prod.mk.injEq] at h
    obtain ⟨rfl, rfl⟩ := h
    exact ⟨t, rfl, hsync, SameSteps.refl s t⟩
  | succ cnt ih =>
    intro i buf buf1 s t s1 hsync h
    obtain ⟨sw, hw, hrest⟩ := write_loop_split k env1 fuel cnt i buf buf1 s s1 h
    obtain ⟨tw, htw, hsw, hst⟩ := wait_valrdy_synced k env1 env2 fuel s t sw hsync hw
    obtain ⟨hb, hsd, hsteps⟩ := drain_synced k env1 env2 i buf sw tw hsw
      (wait_valrdy_flag k env1 fuel s sw hw)
    obtain ⟨t1, ht1, hs1, hst1⟩ := ih _ _ _ _ _ _ hsd hrest
    refine ⟨t1, ?_, hs1, (hst.trans hsteps).trans hst1⟩
    rw [write_loop_succ]
    simp only [write_iter, htw]
    rw [← hb]
    exact ht1

/-- Arming two machines alike makes them synced, by the same steps. -/
theorem armed_synced (n : Nat) (s t : Machine) (h : Alike k env1 env2 s t) :
    Synced k env1 env2 (armed k n s) (armed k n t) ∧
      SameSteps s t (armed k n s) (armed k n t) := by
  obtain ⟨hs, hr, hscr, he⟩ := h
  by_cases h1 : n = 1
  · subst h1
    rw [armed_one, armed_one]
    exact ⟨⟨⟨by simp [hs], hr, hscr, he⟩, rfl, fun h0 => absurd rfl h0⟩,
      ⟨_, _, rfl, rfl, by simp [hs]⟩⟩
  · rw [armed_many k n s h1, armed_many k n t h1]
    exact ⟨⟨⟨hs, hr, hscr, he⟩, rfl, fun h0 => absurd rfl h0⟩, ⟨_, _, rfl, rfl, rfl⟩⟩

/-- A call that returns on one machine returns on a machine alike, with the
same fuel, the same status, the same buffer and by the same steps, and leaves
the two machines alike. -/
theorem rng_lld_write_alike (fuel : Nat) (rngp1 rngp2 : RNGDriver) (buf buf1 : List Nat)
    (n timeout1 timeout2 : Nat) (s t s1 : Machine) (r : msg_t) (h : Alike k env1 env2 s t)
    (hw : rng_lld_write k env1 fuel rngp1 buf n timeout1 s = some (r, buf1, s1)) :
    ∃ t1, rng_lld_write k env2 fuel rngp2 buf n timeout2 t = some (r, buf1, t1) ∧
      Alike k env1 env2 s1 t1 ∧ SameSteps s t s1 t1 := by
  by_cases h0 : n = 0
  · subst h0
    rw [rng_lld_write_zero] at hw
    simp only [Option.some.injEq, Prod.mk.injEq] at hw
    obtain ⟨rfl, rfl, rfl⟩ := hw
    exact ⟨t, rfl, h, SameSteps.refl s t⟩
  · obtain ⟨rfl, hl⟩ := rng_lld_write_some k env1 fuel rngp1 buf buf1 n timeout1 s s1 r h0 hw
    obtain ⟨ha, hsteps⟩ := armed_synced k env1 env2 n s t h
    obtain ⟨t1, ht1, hs1, hst1⟩ := write_loop_synced k env1 env2 fuel n 0 buf buf1 _ _ s1 ha hl
    refine ⟨t1, ?_, hs1.1, hsteps.trans hst1⟩
    rw [rng_lld_write_pos k env2 fuel rngp2 buf n timeout2 t h0, ht1]

/-- Two machines alike behave the same under a call: the status, the buffer
and the accesses made (up to the values read from `SCB->SCR`) are the same,
and so is whether the call returns with the given fuel. -/
theorem rng_lld_write_same (fuel : Nat) (rngp1 rngp2 : RNGDriver) (buf : List Nat)
    (n timeout1 timeout2 : Nat) (s t : Machine) (h : Alike k env1 env2 s t) :
    (rng_lld_write k env1 fuel rngp1 buf n timeout1 s).map
        (fun q => (q.1, q.2.1, exceptScrReads (q.2.2.log.drop s.log.length))) =
      (rng_lld_write k env2 fuel rngp2 buf n timeout2 t).map
        (fun q => (q.1, q.2.1, exceptScrReads (q.2.2.log.drop t.log.length))) := by
  have key : ∀ (env1 env2 : Env) (rngp1 rngp2 : RNGDriver) (timeout1 timeout2 : Nat)
      (s t : Machine), Alike k env1 env2 s t → ∀ q1,
      rng_lld_write k env1 fuel rngp1 buf n timeout1 s = some q1 →
      (rng_lld_write k env2 fuel rngp2 buf n timeout2 t).map
        (fun q => (q.1, q.2.1, exceptScrReads (q.2.2.log.drop t.log.length))) =
      some (q1.1, q1.2.1, exceptScrReads (q1.2.2.log.drop s.log.length)) := by
    intro env1 env2 rngp1 rngp2 timeout1 timeout2 s t h q1 hq
    obtain ⟨r, buf1, s1⟩ := q1
    obtain ⟨t1, ht1, -, c1, c2, hc1, hc2, hc⟩ :=
      rng_lld_write_alike k env1 env2 fuel rngp1 rngp2 buf buf1 n timeout1 timeout2 s t s1 r h hq
    rw [ht1]
    simp only [Option.map_some', hc1, hc2, List.drop_left, hc]
  cases h1 : rng_lld_write k env1 fuel rngp1 buf n timeout1 s with
  | some q1 =>
    rw [key env1 env2 rngp1 rngp2 timeout1 timeout2 s t h q1 h1]
    rfl
  | none =>
    cases h2 : rng_lld_write k env2 fuel rngp2 buf n timeout2 t with
    | none => rfl
    | some q2 =>
      have := key env2 env1 rngp2 rngp1 timeout2 timeout1 t s h.symm q2 h2
      rw [h1] at this
      simp at this

end Simulation

/-! ## Histories of calls -/

section History
variable (k : Header) (env : Env)

theorem or_or_mask (x msk : Nat) : (x ||| msk) ||| msk = x ||| msk := by
  rw [Nat.or_assoc, Nat.or_self]

theorem andNot32_andNot32 (x msk : Nat) : andNot32 (andNot32 x msk) msk = andNot32 x msk := by
  unfold andNot32
  rw [Nat.and_assoc, Nat.and_self]

/-- The wait loop changes `SCB->SCR` in the SEVONPEND bits only. -/
theorem wait_valrdy_scr (fuel : Nat) (m m1 : Machine)
    (h : wait_valrdy k env fuel m = some m1) :
    m1.SCR ||| k.SCB_SCR_SEVONPEND_Msk = m.SCR ||| k.SCB_SCR_SEVONPEND_Msk := by
  refine wait_valrdy_induct k env (fun m m1 =>
    m1.SCR ||| k.SCB_SCR_SEVONPEND_Msk = m.SCR ||| k.SCB_SCR_SEVONPEND_Msk) ?_ ?_ fuel m m1 h
  · intro m _; simp
  · intro m m1 _ ih
    rw [ih, spin_SCR, or_or_mask]
    simp

/-- The `for` loop changes `SCB->SCR` in the SEVONPEND bits only. -/
theorem write_loop_scr (fuel : Nat) : ∀ (cnt i : Nat) (buf buf1 : List Nat) (m m1 : Machine),
    write_loop k env fuel cnt i buf m = some (buf1, m1) →
    m1.SCR ||| k.SCB_SCR_SEVONPEND_Msk = m.SCR ||| k.SCB_SCR_SEVONPEND_Msk := by
  intro cnt
  induction cnt with
  | zero =>
    intro i buf buf1 m m1 h
    rw [write_loop_zero] at h
    cases h
    rfl
  | succ cnt ih =>
    intro i buf buf1 m m1 h
    obtain ⟨mw, hw, hrest⟩ := write_loop_split k env fuel cnt i buf buf1 m m1 h
    rw [ih _ _ _ _ _ hrest, drain_eq]
    exact wait_valrdy_scr k env fuel m mw hw

/-- A call changes `SCB->SCR` in the SEVONPEND bits only. -/
theorem rng_lld_write_scr (fuel : Nat) (rngp : RNGDriver) (buf buf1 : List Nat)
    (n timeout : Nat) (m m1 : Machine) (r : msg_t)
    (h : rng_lld_write k env fuel rngp buf n timeout m = some (r, buf1, m1)) :
    m1.SCR ||| k.SCB_SCR_SEVONPEND_Msk = m.SCR ||| k.SCB_SCR_SEVONPEND_Msk := by
  by_cases h0 : n = 0
  · subst h0
    rw [rng_lld_write_zero] at h
    simp only [Option.some.injEq, Prod.mk.injEq] at h
    obtain ⟨-, -, rfl⟩ := h
    rfl
  · obtain ⟨-, hl⟩ := rng_lld_write_some k env fuel rngp buf buf1 n timeout m m1 r h0 h
    rw [write_loop_scr k env fuel n 0 buf buf1 _ m1 hl]
    by_cases h1 : n = 1
    · subst h1; rw [armed_one]
    · rw [armed_many k n m h1]

/-- What a history of writes, none of a single byte, with time passing between
them, leaves as it was. -/
theorem calls_frame : ∀ (hist : List Call) (s s1 : RNGDriver × Machine),
    hist.all notSingleByte = true → calls k env hist s = some s1 →
    s1.1 = s.1 ∧ s1.2.POWER = s.2.POWER ∧ s1.2.CONFIG = s.2.CONFIG ∧
      s1.2.INTENSET = s.2.INTENSET ∧ s1.2.SHORTS = s.2.SHORTS ∧
      s1.2.SCR ||| k.SCB_SCR_SEVONPEND_Msk = s.2.SCR ||| k.SCB_SCR_SEVONPEND_Msk := by
  intro hist
  induction hist with
  | nil =>
    intro s s1 _ h
    simp only [calls, Option.some.injEq] at h
    subst h
    exact ⟨rfl, rfl, rfl, rfl, rfl, rfl⟩
  | cons c hist ih =>
    intro s s1 hall h
    simp only [List.all_cons, Bool.and_eq_true] at hall
    obtain ⟨hc, hrest⟩ := hall
    obtain ⟨rngp, m⟩ := s
    cases c with
    | start => simp [notSingleByte] at hc
    | stop => simp [notSingleByte] at hc
    | idle =>
      simp only [calls, call] at h
      obtain ⟨i1, i2, i3, i4, i5, i6⟩ := ih (rngp, tick k env m) s1 hrest h
      exact ⟨i1, i2.trans (tick_POWER k env m), i3.trans (tick_CONFIG k env m),
        i4.trans (tick_INTENSET k env m), i5.trans (tick_SHORTS k env m),
        i6.trans (by rw [tick_SCR])⟩
    | write buf n timeout fuel =>
      have hn : n ≠ 1 := by simpa [notSingleByte] using hc
      simp only [calls, call] at h
      cases hw : rng_lld_write k env fuel rngp buf n timeout m with
      | none => simp [hw] at h
      | some q =>
        obtain ⟨r, buf1, m1⟩ := q
        simp only [hw] at h
        obtain ⟨i1, i2, i3, i4, i5, i6⟩ := ih (rngp, m1) s1 hrest h
        obtain ⟨f1, f2, f3, f4⟩ :=
          rng_lld_write_frame k env fuel rngp buf buf1 n timeout m m1 r hw
        rw [if_neg hn] at f4
        have f6 := rng_lld_write_scr k env fuel rngp buf buf1 n timeout m m1 r hw
        exact ⟨i1, i2.trans f1, i3.trans f2, i4.trans f3, i5.trans f4, i6.trans f6⟩

/-- With the shortcut set, a call for two bytes or more never returns: the
generator stops at the first value. -/
theorem rng_lld_write_shortcut_blocks (fuel : Nat) (rngp : RNGDriver) (buf : List Nat)
    (n timeout : Nat) (m : Machine) (hn : 2 ≤ n)
    (hs : m.SHORTS &&& k.RNG_SHORTS_VALRDY_STOP_Msk ≠ 0) :
    rng_lld_write k env fuel rngp buf n timeout m = none := by
  rw [rng_lld_write_pos k env fuel rngp buf n timeout m (by omega)]
  obtain ⟨c, rfl⟩ : ∃ c, n = c + 1 + 1 := ⟨n - 2, by omega⟩
  cases hl : write_loop k env fuel (c + 1 + 1) 0 buf (armed k (c + 1 + 1) m) with
  | none => rfl
  | some q =>
    obtain ⟨buf1, m1⟩ := q
    obtain ⟨mw, hw, hrest⟩ := write_loop_split k env fuel (c + 1) 0 buf buf1 _ m1 hl
    obtain ⟨-, -, h3⟩ := wait_valrdy_running k env fuel _ mw hw
    have hstop : mw.running = false := by
      apply h3 _ (by simp)
      rw [armed_many k (c + 1 + 1) m (by omega)]
      exact hs
    rw [write_loop_stopped k env fuel c (0 + 1) _ _ (by rw [drain_eq]; exact hstop)
      (by rw [drain_eq])] at hrest
    simp at hrest

end History

/-! ## The properties of the driver -/

section Bits

theorem testBit_or_mask (c msk j : Nat) :
    (c ||| msk).testBit j = (c.testBit j || msk.testBit j) :=
  Nat.testBit_or c msk j

theorem testBit_andNot32 (c msk j : Nat) (hj : j < 32) :
    (andNot32 c msk).testBit j = (c.testBit j && !msk.testBit j) := by
  have h : (0xFFFFFFFF : Nat).testBit j = true := by
    have : (0xFFFFFFFF : Nat) = 2 ^ 32 - 1 := by norm_num
    rw [this, Nat.testBit_two_pow_sub_one]
    simpa using hj
  simp [andNot32, Nat.testBit_and, Nat.testBit_xor, h]

end Bits

/-- Claim C5: for every driver state, buffer, timeout and machine, and
whatever the fuel, `rng_lld_write` with `n = 0` returns `MSG_OK` with the
buffer and the whole machine unchanged: no register is read or written, the
log is the log at entry. -/
theorem rng_lld_write_zero_no_access (k : Header) (env : Env) (fuel : Nat) (rngp : RNGDriver)
    (buf : List Nat) (timeout : Nat) (m : Machine) :
    rng_lld_write k env fuel rngp buf 0 timeout m = some (msg_t.MSG_OK, buf, m) ∧
      ∀ r buf1 m1, rng_lld_write k env fuel rngp buf 0 timeout m = some (r, buf1, m1) →
        m1.log = m.log ∧ m1 = m ∧ buf1 = buf := by
  refine ⟨rfl, ?_⟩
  intro r buf1 m1 h
  rw [rng_lld_write_zero] at h
  simp only [Option.some.injEq, Prod.mk.injEq] at h
  obtain ⟨-, rfl, rfl⟩ := h
  exact ⟨rfl, rfl, rfl⟩

/-- Claim C6: from every machine, `rng_lld_start` on an instance without a
configuration and on an instance with the explicit default configuration end
in the same machine (same log of accesses, same registers); after the start
without a configuration the instance holds the default configuration, so a
later start of that instance is a start with the default configuration. -/
theorem rng_lld_start_default_config (k : Header) (m : Machine) :
    (rng_lld_start k { config := none } m).2 =
        (rng_lld_start k { config := some default_config } m).2 ∧
      (rng_lld_start k { config := none } m).1.config = some default_config ∧
      default_config = { digital_error_correction := true, power_on_write := true } ∧
      ∀ m1, rng_lld_start k (rng_lld_start k { config := none } m).1 m1 =
        rng_lld_start k { config := some default_config } m1 :=
  ⟨rfl, rfl, rfl, fun _ => rfl⟩

/-- Claim C7: for every configuration `c` and machine, `rng_lld_start` makes
exactly these accesses, in this order: POWER := 1; a read of CONFIG; CONFIG :=
the value read with the DERCEN bits set when `c.digital_error_correction`, and
cleared otherwise; INTENSET := RNG_INTENSET_VALRDY_Msk; TASKS_START := 1.  The
new CONFIG agrees with the old one on every bit (of the 32) outside
RNG_CONFIG_DERCEN_Msk, and its bits inside the mask are set exactly when
`c.digital_error_correction` is true. -/
theorem rng_lld_start_accesses (k : Header) (c : RNGConfig) (m : Machine) :
    (rng_lld_start k { config := some c } m).2.log =
        m.log ++ [Access.wr .POWER 1, Access.rd .CONFIG m.CONFIG,
          Access.wr .CONFIG (rng_lld_start k { config := some c } m).2.CONFIG,
          Access.wr .INTENSET k.RNG_INTENSET_VALRDY_Msk, Access.wr .TASKS_START 1] ∧
      effects ((rng_lld_start k { config := some c } m).2.log.drop m.log.length) =
        [Access.wr .POWER 1,
          Access.wr .CONFIG (rng_lld_start k { config := some c } m).2.CONFIG,
          Access.wr .INTENSET k.RNG_INTENSET_VALRDY_Msk, Access.wr .TASKS_START 1] ∧
      (rng_lld_start k { config := some c } m).2.CONFIG =
        (if c.digital_error_correction then m.CONFIG ||| k.RNG_CONFIG_DERCEN_Msk
         else andNot32 m.CONFIG k.RNG_CONFIG_DERCEN_Msk) ∧
      ∀ j, j < 32 →
        (k.RNG_CONFIG_DERCEN_Msk.testBit j = false →
          (rng_lld_start k { config := some c } m).2.CONFIG.testBit j = m.CONFIG.testBit j) ∧
        (k.RNG_CONFIG_DERCEN_Msk.testBit j = true →
          (rng_lld_start k { config := some c } m).2.CONFIG.testBit j =
            c.digital_error_correction) := by
  have hcfg : (rng_lld_start k { config := some c } m).2.CONFIG =
      (if c.digital_error_correction then m.CONFIG ||| k.RNG_CONFIG_DERCEN_Msk
       else andNot32 m.CONFIG k.RNG_CONFIG_DERCEN_Msk) := by
    cases hd : c.digital_error_correction <;>
      simp [rng_lld_start, hd, wr, Machine.put, Machine.get]
  have hlog : (rng_lld_start k { config := some c } m).2.log =
        m.log ++ [Access.wr .POWER 1, Access.rd .CONFIG m.CONFIG,
          Access.wr .CONFIG (rng_lld_start k { config := some c } m).2.CONFIG,
          Access.wr .INTENSET k.RNG_INTENSET_VALRDY_Msk, Access.wr .TASKS_START 1] := by
    rw [hcfg]
    cases hd : c.digital_error_correction <;>
      simp [rng_lld_start, hd, wr, Machine.put, Machine.get]
  refine ⟨hlog, ?_, hcfg, ?_⟩
  · rw [hlog]
    simp [effects, isRead]
  · intro j hj
    rw [hcfg]
    cases hd : c.digital_error_correction
    · simp only [Bool.false_eq_true, if_false]
      rw [testBit_andNot32 _ _ _ hj]
      exact ⟨fun h => by simp [h], fun h => by simp [h]⟩
    · simp only [if_true]
      rw [testBit_or_mask]
      exact ⟨fun h => by simp [h], fun h => by simp [h]⟩

/-- A concrete instance of claim C7: on the machine after reset with the nRF51
constants, a start without error correction clears bit 0 of CONFIG and leaves
bit 5 as it was. -/
theorem rng_lld_start_accesses_witness :
    (5 < 32 ∧ nrf51.RNG_CONFIG_DERCEN_Msk.testBit 5 = false) ∧
      (rng_lld_start nrf51 { config := some uncorrected } busy).2.CONFIG.testBit 5 =
        busy.CONFIG.testBit 5 :=
  ⟨⟨by decide, by decide⟩,
    ((rng_lld_start_accesses nrf51 uncorrected busy).2.2.2 5 (by decide)).1 (by decide)⟩

/-- Claim C1: for every buffer and every `n` within it, `rng_lld_write` fills
exactly the first `n` bytes.  On a machine whose generator is running, whose
event stream keeps completing values and whose shortcut does not cut the
harvest short, the flag becomes set for each awaited value and the call
returns `MSG_OK` given enough fuel.  And whenever the flag becomes set for
each awaited value, that is whenever the call gets through its `n` waits, it
returns `MSG_OK`; the accesses it has added to the log clear the flag once and
then, `n` times, observe the flag set, drain the value register and clear the
flag; byte `i < n` of the buffer is the low 8 bits of the value read at drain
`i`, and every byte from `n` on is unchanged. -/
theorem rng_lld_write_fills (k : Header) (env : Env) (rngp : RNGDriver) (buf : List Nat)
    (n timeout : Nat) (m : Machine) (hn : n ≤ buf.length) :
    (m.running = true → (n ≤ 1 ∨ m.SHORTS &&& k.RNG_SHORTS_VALRDY_STOP_Msk = 0) →
      Productive env →
      ∃ fuel buf1 m1,
        rng_lld_write k env fuel rngp buf n timeout m = some (msg_t.MSG_OK, buf1, m1)) ∧
    (∀ (fuel : Nat) (r : msg_t) (buf1 : List Nat) (m1 : Machine),
      rng_lld_write k env fuel rngp buf n timeout m = some (r, buf1, m1) →
      r = msg_t.MSG_OK ∧
      ∃ seg, m1.log = m.log ++ seg ∧
        keyEvents seg = (if n = 0 then [] else Key.clear :: keyPattern n) ∧
        (valueReads seg).length = n ∧
        buf1.length = buf.length ∧
        (∀ i, i < n → buf1[i]? = ((valueReads seg)[i]?).map (fun v => v % 256)) ∧
        (∀ j, n ≤ j → buf1[j]? = buf[j]?)) := by
  refine ⟨fun hr hc henv => rng_lld_write_returns k env henv rngp buf n timeout m hr hc, ?_⟩
  intro fuel r buf1 m1 hw
  by_cases h0 : n = 0
  · subst h0
    rw [rng_lld_write_zero] at hw
    simp only [Option.some.injEq, Prod.mk.injEq] at hw
    obtain ⟨rfl, rfl, rfl⟩ := hw
    exact ⟨rfl, [], by simp, by simp [keyEvents], by simp [valueReads], rfl,
      fun i hi => absurd hi (by omega), fun _ _ => rfl⟩
  · obtain ⟨hok, -⟩ := rng_lld_write_some k env fuel rngp buf buf1 n timeout m m1 r h0 hw
    obtain ⟨hs, hlen, hlog, hbuf⟩ :=
      rng_lld_write_log k env fuel rngp buf buf1 n timeout m m1 _ h0 hw
    obtain ⟨a1, a2, -, -⟩ := armLog_shape k n m.SHORTS
    obtain ⟨l1, l2, -, -⟩ := loopLog_shape k hs
    have hvals : valueReads (armLog k n m.SHORTS ++ loopLog k hs) =
        hs.map (fun h => h.value) := by
      rw [valueReads_append, a2, l2, List.nil_append]
    have hb := hbuf hn
    refine ⟨hok, armLog k n m.SHORTS ++ loopLog k hs, ?_, ?_, ?_, ?_, ?_, ?_⟩
    · rw [hlog, List.append_assoc]
    · rw [keyEvents_append, a1, l1, hlen]; simp [h0]
    · rw [hvals]; simp [hlen]
    · rw [hb]; simp [hlen]; omega
    · intro i hi
      rw [hvals, hb, List.getElem?_append_left (by simp [hlen]; exact hi)]
      simp only [List.getElem?_map, Option.map_map]
      rfl
    · intro j hj
      rw [hb, List.getElem?_append_right (by simp [hlen]; exact hj)]
      simp [hlen, List.getElem?_drop]
      congr 1
      omega

/-- A concrete instance of claim C1: three bytes harvested into a buffer of
five after a start from reset, with a value completed at every third tick. -/
theorem rng_lld_write_fills_witness :
    (3 ≤ [7, 7, 7, 7, 7].length ∧ started.running = true ∧
      started.SHORTS &&& nrf51.RNG_SHORTS_VALRDY_STOP_Msk = 0 ∧ Productive slow) ∧
    (∃ fuel buf1 m1,
      rng_lld_write nrf51 slow fuel { config := none } [7, 7, 7, 7, 7] 3 0 started =
        some (msg_t.MSG_OK, buf1, m1)) ∧
    ∃ r buf1 m1,
      rng_lld_write nrf51 slow 4 { config := none } [7, 7, 7, 7, 7] 3 0 started =
        some (r, buf1, m1) ∧
      r = msg_t.MSG_OK ∧
      ∃ seg, m1.log = started.log ++ seg ∧
        keyEvents seg = (if 3 = 0 then [] else Key.clear :: keyPattern 3) ∧
        (valueReads seg).length = 3 ∧
        buf1.length = [7, 7, 7, 7, 7].length ∧
        (∀ i, i < 3 → buf1[i]? = ((valueReads seg)[i]?).map (fun v => v % 256)) ∧
        (∀ j, 3 ≤ j → buf1[j]? = [7, 7, 7, 7, 7][j]?) :=
  ⟨⟨by decide, by decide, by decide, slow_productive⟩,
    (rng_lld_write_fills nrf51 slow { config := none } [7, 7, 7, 7, 7] 3 0 started
      (by decide)).1 (by decide) (Or.inr (by decide)) slow_productive,
    ⟨_, _, _, rfl,
      (rng_lld_write_fills nrf51 slow { config := none } [7, 7, 7, 7, 7] 3 0 started
        (by decide)).2 4 _ _ _ rfl⟩⟩

/-- Claim C3: `rng_lld_write` sets the auto-stop shortcut exactly when `n = 1`.
For `n = 1`, on a machine whose generator is running and whose event stream
keeps completing values, the call returns `MSG_OK` given enough fuel; and
whenever a call with `n = 1` returns, its accesses are a read of SHORTS, the
write SHORTS := old SHORTS OR RNG_SHORTS_VALRDY_STOP_Msk, the clear of the
flag, and then one iteration, which does not access SHORTS (so SHORTS is
written before the flag is first read); SHORTS holds the written value at the
end, and exactly one byte, `buf[0]`, is harvested.  For every `n` other than
1, a call that returns has made no access to SHORTS and leaves SHORTS as it
was, so a shortcut bit that was clear is still clear. -/
theorem rng_lld_write_shortcut (k : Header) (env : Env) :
    (∀ (rngp : RNGDriver) (buf : List Nat) (timeout : Nat) (m : Machine),
      m.running = true → Productive env →
      ∃ fuel buf1 m1,
        rng_lld_write k env fuel rngp buf 1 timeout m = some (msg_t.MSG_OK, buf1, m1)) ∧
    (∀ (fuel : Nat) (rngp : RNGDriver) (buf : List Nat) (timeout : Nat) (m : Machine)
      (r : msg_t) (buf1 : List Nat) (m1 : Machine),
      rng_lld_write k env fuel rngp buf 1 timeout m = some (r, buf1, m1) →
      ∃ h,
        m1.log = m.log ++ [Access.rd .SHORTS m.SHORTS,
          Access.wr .SHORTS (m.SHORTS ||| k.RNG_SHORTS_VALRDY_STOP_Msk),
          Access.wr .EVENTS_VALRDY 0] ++ iterLog k h ∧
        accessesTo .SHORTS (iterLog k h) = [] ∧
        m1.SHORTS = m.SHORTS ||| k.RNG_SHORTS_VALRDY_STOP_Msk ∧
        valueReads (m1.log.drop m.log.length) = [h.value] ∧
        (1 ≤ buf.length → buf1 = (h.value % 256) :: buf.drop 1)) ∧
    (∀ (fuel : Nat) (rngp : RNGDriver) (buf : List Nat) (n timeout : Nat) (m : Machine)
      (r : msg_t) (buf1 : List Nat) (m1 : Machine), n ≠ 1 →
      rng_lld_write k env fuel rngp buf n timeout m = some (r, buf1, m1) →
      accessesTo .SHORTS (m1.log.drop m.log.length) = [] ∧ m1.SHORTS = m.SHORTS ∧
        (m.SHORTS &&& k.RNG_SHORTS_VALRDY_STOP_Msk = 0 →
          m1.SHORTS &&& k.RNG_SHORTS_VALRDY_STOP_Msk = 0)) := by
  refine ⟨?_, ?_, ?_⟩
  · intro rngp buf timeout m hr henv
    exact rng_lld_write_returns k env henv rngp buf 1 timeout m hr (Or.inl (le_refl 1))
  · intro fuel rngp buf timeout m r buf1 m1 hw
    obtain ⟨hs, hl, hlog, hbuf⟩ :=
      rng_lld_write_log k env fuel rngp buf buf1 1 timeout m m1 _ one_ne_zero hw
    obtain ⟨-, -, -, hsh⟩ := rng_lld_write_frame k env fuel rngp buf buf1 1 timeout m m1 _ hw
    obtain ⟨h, rfl⟩ : ∃ h, hs = [h] := by
      match hs, hl with
      | [h], _ => exact ⟨h, rfl⟩
    obtain ⟨-, i2, -, i4⟩ := iterLog_shape k h
    have hlog1 : m1.log = m.log ++ ([Access.rd .SHORTS m.SHORTS,
          Access.wr .SHORTS (m.SHORTS ||| k.RNG_SHORTS_VALRDY_STOP_Msk),
          Access.wr .EVENTS_VALRDY 0] ++ iterLog k h) := by
      rw [hlog]; simp [armLog, loopLog]
    refine ⟨h, by rw [hlog1, List.append_assoc], i4, by simpa using hsh, ?_,
      fun hlen => by simpa using hbuf hlen⟩
    rw [hlog1, List.drop_left, valueReads_append, i2]
    simp [valueReads, valueOf]
  · intro fuel rngp buf n timeout m r buf1 m1 hn hw
    obtain ⟨-, -, -, hsh⟩ := rng_lld_write_frame k env fuel rngp buf buf1 n timeout m m1 _ hw
    rw [if_neg hn] at hsh
    refine ⟨?_, hsh, fun h => by rw [hsh]; exact h⟩
    by_cases h0 : n = 0
    · subst h0
      rw [rng_lld_write_zero] at hw
      simp only [Option.some.injEq, Prod.mk.injEq] at hw
      obtain ⟨-, -, rfl⟩ := hw
      simp [accessesTo]
    · obtain ⟨hs, -, hlog, -⟩ :=
        rng_lld_write_log k env fuel rngp buf buf1 n timeout m m1 _ h0 hw
      obtain ⟨-, -, -, a4⟩ := armLog_shape k n m.SHORTS
      obtain ⟨-, -, -, l4⟩ := loopLog_shape k hs
      rw [hlog, List.append_assoc, List.drop_left, accessesTo_append, a4 hn, l4]
      rfl

/-- A concrete instance of claim C3: after a start from reset, a single-byte
call returns, having set the shortcut before its wait, and a two-byte call
does not touch SHORTS. -/
theorem rng_lld_write_shortcut_witness :
    (∃ fuel buf1 m1,
        rng_lld_write nrf51 steady fuel { config := none } [9, 9] 1 0 started =
          some (msg_t.MSG_OK, buf1, m1)) ∧
    (∃ r buf1 m1,
        rng_lld_write nrf51 steady 2 { config := none } [9, 9] 1 0 started =
          some (r, buf1, m1) ∧
        ∃ h,
          m1.log = started.log ++ [Access.rd .SHORTS started.SHORTS,
            Access.wr .SHORTS (started.SHORTS ||| nrf51.RNG_SHORTS_VALRDY_STOP_Msk),
            Access.wr .EVENTS_VALRDY 0] ++ iterLog nrf51 h ∧
          accessesTo .SHORTS (iterLog nrf51 h) = [] ∧
          m1.SHORTS = started.SHORTS ||| nrf51.RNG_SHORTS_VALRDY_STOP_Msk ∧
          valueReads (m1.log.drop started.log.length) = [h.value] ∧
          (1 ≤ [9, 9].length → buf1 = (h.value % 256) :: [9, 9].drop 1)) ∧
    (∃ r buf1 m1,
        rng_lld_write nrf51 steady 3 { config := none } [9, 9] 2 0 started =
          some (r, buf1, m1) ∧
        accessesTo .SHORTS (m1.log.drop started.log.length) = [] ∧
        m1.SHORTS = started.SHORTS ∧
        (started.SHORTS &&& nrf51.RNG_SHORTS_VALRDY_STOP_Msk = 0 →
          m1.SHORTS &&& nrf51.RNG_SHORTS_VALRDY_STOP_Msk = 0)) :=
  ⟨(rng_lld_write_shortcut nrf51 steady).1 { config := none } [9, 9] 0 started rfl
      steady_productive,
    ⟨_, _, _, rfl, (rng_lld_write_shortcut nrf51 steady).2.1 2 { config := none } [9, 9] 0
      started _ _ _ rfl⟩,
    ⟨_, _, _, rfl, (rng_lld_write_shortcut nrf51 steady).2.2 3 { config := none } [9, 9] 2 0
      started _ _ _ (by decide) rfl⟩⟩

/-- Claim C9: the flag is unset at the end of every iteration of the `for`
loop of `rng_lld_write`.  Whatever the machine an iteration starts from
(however many tests of the flag its wait loop makes and whatever value it
drains), an iteration that ends leaves EVENTS_VALRDY = 0.  So when a call with
`n ≥ 1` returns, then for every `i < n` the machine right after iteration `i`
(from which the remaining `n - (i + 1)` iterations lead to the final machine)
has the flag unset, and the flag is unset when the call returns. -/
theorem rng_lld_write_flag_unset (k : Header) (env : Env) (fuel : Nat) :
    (∀ (i : Nat) (buf buf1 : List Nat) (m m1 : Machine),
      write_iter k env fuel i buf m = some (buf1, m1) → m1.EVENTS_VALRDY = 0) ∧
    (∀ (rngp : RNGDriver) (buf : List Nat) (n timeout : Nat) (m : Machine) (r : msg_t)
      (buf1 : List Nat) (m1 : Machine),
      rng_lld_write k env fuel rngp buf n timeout m = some (r, buf1, m1) →
      (∀ i, i < n → ∃ bi mi,
        write_loop k env fuel (i + 1) 0 buf (armed k n m) = some (bi, mi) ∧
        mi.EVENTS_VALRDY = 0 ∧
        write_loop k env fuel (n - (i + 1)) (i + 1) bi mi = some (buf1, m1)) ∧
      (1 ≤ n → m1.EVENTS_VALRDY = 0)) := by
  constructor
  · intro i buf buf1 m m1 h
    obtain ⟨mw, -, hd⟩ := write_iter_eq k env fuel i buf buf1 m m1 h
    rw [drain_eq] at hd
    simp only [Prod.mk.injEq] at hd
    rw [← hd.2]
  · intro rngp buf n timeout m r buf1 m1 h
    by_cases h0 : n = 0
    · subst h0
      exact ⟨fun i hi => absurd hi (by omega), fun h1 => absurd h1 (by omega)⟩
    · obtain ⟨-, hl⟩ := rng_lld_write_some k env fuel rngp buf buf1 n timeout m m1 r h0 h
      refine ⟨fun i hi => ?_, fun _ =>
        (write_loop_flag k env fuel n 0 buf buf1 _ m1 hl (by omega)).1⟩
      have hsplit := write_loop_add k env fuel (n - (i + 1)) (i + 1) 0 buf (armed k n m)
      rw [show i + 1 + (n - (i + 1)) = n by omega, hl] at hsplit
      cases hp : write_loop k env fuel (i + 1) 0 buf (armed k n m) with
      | none => simp [hp] at hsplit
      | some q =>
        obtain ⟨bi, mi⟩ := q
        simp only [hp, Nat.zero_add] at hsplit
        exact ⟨bi, mi, rfl, (write_loop_flag k env fuel (i + 1) 0 buf bi _ mi hp (by omega)).1,
          hsplit.symm⟩

/-- A concrete instance of claim C9: a three-byte call after a start from
reset, with a value completed at every third tick; the flag is unset after
the second iteration and at the return. -/
theorem rng_lld_write_flag_unset_witness :
    ∃ r buf1 m1,
      rng_lld_write nrf51 slow 4 { config := none } [0, 0, 0] 3 0 started = some (r, buf1, m1) ∧
      (∃ bi mi, write_loop nrf51 slow 4 (1 + 1) 0 [0, 0, 0] (armed nrf51 3 started) =
          some (bi, mi) ∧ mi.EVENTS_VALRDY = 0 ∧
        write_loop nrf51 slow 4 (3 - (1 + 1)) (1 + 1) bi mi = some (buf1, m1)) ∧
      m1.EVENTS_VALRDY = 0 :=
  ⟨_, _, _, rfl,
    ((rng_lld_write_flag_unset nrf51 slow 4).2 { config := none } [0, 0, 0] 3 0 started _ _ _
      rfl).1 1 (by decide),
    ((rng_lld_write_flag_unset nrf51 slow 4).2 { config := none } [0, 0, 0] 3 0 started _ _ _
      rfl).2 (by decide)⟩

/-- Claim C10, as the code has it: in the scenario of a start followed by a
four-byte call, with the shortcut clear at the start and an event stream that
keeps completing values, the call returns `MSG_OK` given enough fuel; and
whenever the four-byte call returns, it has written zero to the flag five
times, not four: once before the loop and once after each of the four drains.
Each of the four bytes is drained after its own observation of the flag set,
with a clear between any two drains; SHORTS is not accessed and is left as it
was, so no shortcut is engaged. -/
theorem rng_lld_write_four_bytes (k : Header) (env : Env) (rngp : RNGDriver) (buf : List Nat)
    (timeout : Nat) (m : Machine) (hb : 4 ≤ buf.length) :
    (m.SHORTS &&& k.RNG_SHORTS_VALRDY_STOP_Msk = 0 → Productive env →
      ∃ fuel buf1 m1,
        rng_lld_write k env fuel (rng_lld_start k rngp m).1 buf 4 timeout
          (rng_lld_start k rngp m).2 = some (msg_t.MSG_OK, buf1, m1)) ∧
    (∀ (fuel : Nat) (r : msg_t) (buf1 : List Nat) (m1 : Machine),
      rng_lld_write k env fuel (rng_lld_start k rngp m).1 buf 4 timeout
        (rng_lld_start k rngp m).2 = some (r, buf1, m1) →
      r = msg_t.MSG_OK ∧
      ∃ seg, m1.log = (rng_lld_start k rngp m).2.log ++ seg ∧
        flagClears seg = 5 ∧
        keyEvents seg = [Key.clear, Key.observe, Key.drain, Key.clear, Key.observe, Key.drain,
          Key.clear, Key.observe, Key.drain, Key.clear, Key.observe, Key.drain, Key.clear] ∧
        buf1 = (valueReads seg).map (fun v => v % 256) ++ buf.drop 4 ∧
        (valueReads seg).length = 4 ∧
        accessesTo .SHORTS seg = [] ∧
        m1.SHORTS = m.SHORTS) := by
  obtain ⟨hr, hsh, -, -, -, -, -⟩ := rng_lld_start_state k rngp m
  refine ⟨fun hs henv => rng_lld_write_returns k env henv (rng_lld_start k rngp m).1
    buf 4 timeout (rng_lld_start k rngp m).2 hr (Or.inr (by rw [hsh]; exact hs)), ?_⟩
  intro fuel r buf1 m1 hw
  obtain ⟨hok, -⟩ := rng_lld_write_some k env fuel _ buf buf1 4 timeout _ m1 r (by decide) hw
  obtain ⟨hvs, hlen, hlog, hbuf⟩ := rng_lld_write_log k env fuel _ buf buf1 4 timeout _ m1 _
    (by decide) hw
  obtain ⟨-, -, -, hfin⟩ := rng_lld_write_frame k env fuel _ buf buf1 4 timeout _ m1 _ hw
  obtain ⟨a1, a2, a3, a4⟩ := armLog_shape k 4 (rng_lld_start k rngp m).2.SHORTS
  obtain ⟨l1, l2, l3, l4⟩ := loopLog_shape k hvs
  refine ⟨hok, armLog k 4 (rng_lld_start k rngp m).2.SHORTS ++ loopLog k hvs,
    by rw [hlog, List.append_assoc], ?_, ?_, ?_, ?_, ?_, ?_⟩
  · rw [flagClears_append, a3, l3, hlen]
  · rw [keyEvents_append, a1, l1, hlen]; rfl
  · rw [valueReads_append, a2, l2, hbuf hb]
    simp only [List.nil_append, List.map_map]
    rfl
  · rw [valueReads_append, a2, l2]; simp [hlen]
  · rw [accessesTo_append, a4 (by decide), l4]; rfl
  · rw [hfin, if_neg (by decide), hsh]

/-- A concrete instance of the scenario of claim C10, with a value completed
at every third tick. -/
theorem rng_lld_write_four_bytes_witness :
    (4 ≤ [0, 0, 0, 0].length ∧ reset.SHORTS &&& nrf51.RNG_SHORTS_VALRDY_STOP_Msk = 0 ∧
      Productive slow) ∧
    (∃ fuel buf1 m1,
      rng_lld_write nrf51 slow fuel (rng_lld_start nrf51 { config := none } reset).1
        [0, 0, 0, 0] 4 0 (rng_lld_start nrf51 { config := none } reset).2 =
          some (msg_t.MSG_OK, buf1, m1)) ∧
    ∃ r buf1 m1,
      rng_lld_write nrf51 slow 4 (rng_lld_start nrf51 { config := none } reset).1
        [0, 0, 0, 0] 4 0 (rng_lld_start nrf51 { config := none } reset).2 =
          some (r, buf1, m1) ∧
      r = msg_t.MSG_OK ∧
      ∃ seg, m1.log = (rng_lld_start nrf51 { config := none } reset).2.log ++ seg ∧
        flagClears seg = 5 ∧
        keyEvents seg = [Key.clear, Key.observe, Key.drain, Key.clear, Key.observe, Key.drain,
          Key.clear, Key.observe, Key.drain, Key.clear, Key.observe, Key.drain, Key.clear] ∧
        buf1 = (valueReads seg).map (fun v => v % 256) ++ [0, 0, 0, 0].drop 4 ∧
        (valueReads seg).length = 4 ∧
        accessesTo .SHORTS seg = [] ∧
        m1.SHORTS = reset.SHORTS :=
  ⟨⟨by decide, by decide, slow_productive⟩,
    (rng_lld_write_four_bytes nrf51 slow { config := none } [0, 0, 0, 0] 0 reset
      (by decide)).1 (by decide) slow_productive,
    ⟨_, _, _, rfl,
      (rng_lld_write_four_bytes nrf51 slow { config := none } [0, 0, 0, 0] 0 reset
        (by decide)).2 4 _ _ _ rfl⟩⟩

/-- Claim C10 fails as stated: after a start with the default configuration
from reset, a four-byte call returns `MSG_OK` having written zero to the flag
five times, so not exactly four times. -/
theorem rng_lld_write_four_bytes_clears_five :
    ∃ buf1 m1,
      rng_lld_write nrf51 steady 2 { config := some default_config } [0, 0, 0, 0] 4 0
        (rng_lld_start nrf51 { config := some default_config } reset).2 =
          some (msg_t.MSG_OK, buf1, m1) ∧
      flagClears (m1.log.drop
        (rng_lld_start nrf51 { config := some default_config } reset).2.log.length) = 5 ∧
      flagClears (m1.log.drop
        (rng_lld_start nrf51 { config := some default_config } reset).2.log.length) ≠ 4 :=
  ⟨_, _, rfl, by decide, by decide⟩

section Leak
variable (k : Header) (env : Env)

/-- No call of the driver, and no tick between calls, clears the shortcut bit. -/
theorem call_keeps_shortcut (c : Call) (s s1 : RNGDriver × Machine)
    (hs : ShortcutSet k s.2) (h : call k env c s = some s1) : ShortcutSet k s1.2 := by
  obtain ⟨rngp, m⟩ := s
  unfold ShortcutSet at hs ⊢
  cases c with
  | start =>
    simp only [call, Option.some.injEq] at h
    subst h
    rw [(rng_lld_start_state k rngp m).2.1]
    exact hs
  | stop =>
    simp only [call, Option.some.injEq] at h
    subst h
    rw [(rng_lld_stop_state rngp m).2.1]
    exact hs
  | idle =>
    simp only [call, Option.some.injEq] at h
    subst h
    rw [tick_SHORTS]
    exact hs
  | write buf n timeout fuel =>
    simp only [call] at h
    cases hw : rng_lld_write k env fuel rngp buf n timeout m with
    | none => simp [hw] at h
    | some q =>
      obtain ⟨r, buf1, m1⟩ := q
      simp only [hw, Option.some.injEq] at h
      subst h
      obtain ⟨-, -, -, hsh⟩ := rng_lld_write_frame k env fuel rngp buf buf1 n timeout m m1 r hw
      simp only [hsh]
      split
      · exact or_and_mask _ _
      · exact hs

/-- No sequence of steps clears the shortcut bit. -/
theorem calls_keep_shortcut : ∀ (cs : List Call) (s s1 : RNGDriver × Machine),
    ShortcutSet k s.2 → calls k env cs s = some s1 → ShortcutSet k s1.2 := by
  intro cs
  induction cs with
  | nil =>
    intro s s1 hs h
    simp only [calls, Option.some.injEq] at h
    subst h
    exact hs
  | cons c cs ih =>
    intro s s1 hs h
    simp only [calls] at h
    cases hc : call k env c s with
    | none => simp [hc] at h
    | some s2 =>
      simp only [hc] at h
      exact ih s2 s1 (call_keeps_shortcut k env c s s2 hs hc) h

end Leak

/-- Claim C4: the auto-stop shortcut bit leaks across calls.  When a call of
`rng_lld_write` with `n = 1` has returned, the RNG_SHORTS_VALRDY_STOP_Msk bit
of SHORTS is set, and it is set in the machine reached by any sequence of
later calls of the driver (starts, stops, writes of any size, with any time
passing between them), so at entry to and at exit from every later write; no
call of the driver clears the bit once it is set. -/
theorem shortcut_bit_leaks (k : Header) (env : Env) :
    (∀ (fuel : Nat) (rngp : RNGDriver) (buf : List Nat) (timeout : Nat) (m : Machine)
      (r : msg_t) (buf1 : List Nat) (m1 : Machine),
      rng_lld_write k env fuel rngp buf 1 timeout m = some (r, buf1, m1) →
      ShortcutSet k m1 ∧
        ∀ (cs : List Call) (d : RNGDriver) (s2 : RNGDriver × Machine),
          calls k env cs (d, m1) = some s2 → ShortcutSet k s2.2) ∧
    (∀ (c : Call) (s s1 : RNGDriver × Machine),
      ShortcutSet k s.2 → call k env c s = some s1 → ShortcutSet k s1.2) := by
  refine ⟨?_, call_keeps_shortcut k env⟩
  intro fuel rngp buf timeout m r buf1 m1 h
  obtain ⟨-, -, -, hsh⟩ := rng_lld_write_frame k env fuel rngp buf buf1 1 timeout m m1 r h
  have h1 : ShortcutSet k m1 := by
    unfold ShortcutSet
    rw [hsh, if_pos rfl]
    exact or_and_mask _ _
  exact ⟨h1, fun cs d s2 hc => calls_keep_shortcut k env cs (d, m1) s2 h1 hc⟩

/-- A concrete instance of claim C4: after a single-byte call, a stop, a
start and a second single-byte call, the shortcut bit is still set. -/
theorem shortcut_bit_leaks_witness :
    ∃ r buf1 m1 s2,
      rng_lld_write nrf51 steady 2 { config := none } [0] 1 0 started = some (r, buf1, m1) ∧
      calls nrf51 steady [Call.write [0, 0] 0 0 0, Call.stop, Call.start, Call.write [0] 1 0 2]
        ({ config := none }, m1) = some s2 ∧
      ShortcutSet nrf51 m1 ∧ ShortcutSet nrf51 s2.2 :=
  ⟨_, _, _, _, rfl, rfl,
    ((shortcut_bit_leaks nrf51 steady).1 2 { config := none } [0] 0 started _ _ _ rfl).1,
    ((shortcut_bit_leaks nrf51 steady).1 2 { config := none } [0] 0 started _ _ _ rfl).2
      [Call.write [0, 0] 0 0 0, Call.stop, Call.start, Call.write [0] 1 0 2] { config := none }
      _ rfl⟩

/-- Claim C2 fails on the code: after a start from reset, a first single-byte
call returns `MSG_OK` and leaves the generator stopped by the shortcut; every
later call with `n ≥ 1` is then still waiting for the flag whatever the fuel,
the event stream and the buffer: it never returns. -/
theorem rng_lld_write_after_single_byte_blocks :
    ∃ buf1 m1,
      rng_lld_write nrf51 steady 2 { config := none } [0] 1 0
        (rng_lld_start nrf51 { config := none } reset).2 = some (msg_t.MSG_OK, buf1, m1) ∧
      m1.running = false ∧
      ∀ (env : Env) (fuel n : Nat) (buf : List Nat) (timeout : Nat),
        rng_lld_write nrf51 env fuel { config := none } buf (n + 1) timeout m1 = none :=
  ⟨_, _, rfl, rfl, fun env fuel n buf timeout =>
    rng_lld_write_stopped nrf51 env fuel { config := none } buf (n + 1) timeout _
      (Nat.succ_ne_zero n) rfl⟩

/-- Claim C8, as the code has it: restart after a history without single-byte
writes.  Let an instance be started, then any history of `rng_lld_write` calls
be made, none with `n = 1`, all returned, with any time passing between
them.  Then `rng_lld_stop` followed by `rng_lld_start` leaves the
configuration of the instance, POWER, CONFIG, INTENSET and SHORTS as they were
right after the first start, with the generator running; and a following `rng_lld_write(buf, n, _)`, for the event
stream the first activation would have seen, behaves as the same call made
right after the first start: with the same fuel both return or both are still
waiting, with the same status, the same bytes and the same accesses in the
same order, up to the values read from `SCB->SCR` (whose SEVONPEND bits the
history may have set).  The flag itself is not restored, the call clears it
on entry. -/
theorem restart_after_multi_byte_writes (k : Header) (env env2 : Env) (rngp : RNGDriver)
    (m0 : Machine) (hist : List Call) (s1 : RNGDriver × Machine)
    (hh : hist.all notSingleByte = true)
    (hc : calls k env hist (rng_lld_start k rngp m0) = some s1)
    (he : ∀ j, env2 ((restart k s1).2.now + j) = env ((rng_lld_start k rngp m0).2.now + j)) :
    (restart k s1).1 = (rng_lld_start k rngp m0).1 ∧
      (restart k s1).2.POWER = (rng_lld_start k rngp m0).2.POWER ∧
      (restart k s1).2.CONFIG = (rng_lld_start k rngp m0).2.CONFIG ∧
      (restart k s1).2.INTENSET = (rng_lld_start k rngp m0).2.INTENSET ∧
      (restart k s1).2.SHORTS = (rng_lld_start k rngp m0).2.SHORTS ∧
      (restart k s1).2.running = true ∧ (rng_lld_start k rngp m0).2.running = true ∧
      ∀ (fuel : Nat) (buf : List Nat) (n timeout : Nat),
        behaviour (restart k s1).2
            (rng_lld_write k env2 fuel (restart k s1).1 buf n timeout (restart k s1).2) =
          behaviour (rng_lld_start k rngp m0).2
            (rng_lld_write k env fuel (rng_lld_start k rngp m0).1 buf n timeout
              (rng_lld_start k rngp m0).2) := by
  obtain ⟨f1, -, f3, -, f5, f6⟩ := calls_frame k env hist _ s1 hh hc
  obtain ⟨s1d, s1m⟩ := s1
  simp only at f1 f3 f5 f6
  subst f1
  have hA := rng_lld_start_eq k rngp m0
  have hB : restart k ((rng_lld_start k rngp m0).1, s1m) =
      rng_lld_start k (rng_lld_start k rngp m0).1 (rng_lld_stop (rng_lld_start k rngp m0).1 s1m).2 :=
    rfl
  have hBe := rng_lld_start_eq k (rng_lld_start k rngp m0).1
    (rng_lld_stop (rng_lld_start k rngp m0).1 s1m).2
  obtain ⟨-, p2, -, p4, -, -, p7, p8⟩ := rng_lld_stop_state (rng_lld_start k rngp m0).1 s1m
  have hcfg : (rng_lld_start k rngp m0).1.config = some (rngp.config.getD default_config) := by
    rw [hA]
  have hconf : (restart k ((rng_lld_start k rngp m0).1, s1m)).2.CONFIG =
      (rng_lld_start k rngp m0).2.CONFIG := by
    rw [hB, hBe]
    simp only [hcfg, Option.getD_some, p4, f3]
    rw [hA]
    simp only []
    split
    · exact or_or_mask _ _
    · exact andNot32_andNot32 _ _
  have hshorts : (restart k ((rng_lld_start k rngp m0).1, s1m)).2.SHORTS =
      (rng_lld_start k rngp m0).2.SHORTS := by
    rw [hB, (rng_lld_start_state k _ _).2.1, p2, f5]
  have hrunB : (restart k ((rng_lld_start k rngp m0).1, s1m)).2.running = true := by
    rw [hB]; exact (rng_lld_start_state k _ _).1
  have hrunA := (rng_lld_start_state k rngp m0).1
  have hscr : (restart k ((rng_lld_start k rngp m0).1, s1m)).2.SCR |||
      k.SCB_SCR_SEVONPEND_Msk = (rng_lld_start k rngp m0).2.SCR ||| k.SCB_SCR_SEVONPEND_Msk := by
    rw [hB, (rng_lld_start_state k _ _).2.2.2.2.2.1, p7, f6]
  refine ⟨?_, ?_, hconf, ?_, hshorts, hrunB, hrunA, ?_⟩
  · rw [hB, hBe, hcfg]; simp only [Option.getD_some]; rw [hA]
  · rw [hB, (rng_lld_start_state k _ _).2.2.1, (rng_lld_start_state k rngp m0).2.2.1]
  · rw [hB, (rng_lld_start_state k _ _).2.2.2.1, (rng_lld_start_state k rngp m0).2.2.2.1]
  · intro fuel buf n timeout
    exact rng_lld_write_same k env2 env fuel _ _ buf n timeout timeout _ _
      ⟨hshorts, by rw [hrunB, hrunA], hscr, he⟩

/-- A concrete instance of claim C8 as amended: after a start from reset, one
two-byte call, one more tick, a stop and a start, a two-byte call behaves as
it does right after the first start, for the event stream shifted by the five
ticks the history took. -/
theorem restart_after_multi_byte_writes_witness :
    ([Call.write [0, 0] 2 0 3, Call.idle].all notSingleByte = true ∧
      calls nrf51 steady [Call.write [0, 0] 2 0 3, Call.idle]
        (rng_lld_start nrf51 { config := none } reset) = some afterTwoBytesAndATick) ∧
    (restart nrf51 afterTwoBytesAndATick).2.SHORTS =
      (rng_lld_start nrf51 { config := none } reset).2.SHORTS ∧
    behaviour (restart nrf51 afterTwoBytesAndATick).2
        (rng_lld_write nrf51 (delayed 5 steady) 3 (restart nrf51 afterTwoBytesAndATick).1
          [0, 0] 2 0 (restart nrf51 afterTwoBytesAndATick).2) =
      behaviour (rng_lld_start nrf51 { config := none } reset).2
        (rng_lld_write nrf51 steady 3 (rng_lld_start nrf51 { config := none } reset).1 [0, 0] 2 0
          (rng_lld_start nrf51 { config := none } reset).2) :=
  have hnow : ∀ j, delayed 5 steady ((restart nrf51 afterTwoBytesAndATick).2.now + j) =
      steady ((rng_lld_start nrf51 { config := none } reset).2.now + j) := fun j => by
    have h1 : (restart nrf51 afterTwoBytesAndATick).2.now = 5 := by decide
    have h0 : (rng_lld_start nrf51 { config := none } reset).2.now = 0 := by decide
    rw [h1, h0]
    simp [delayed]
  ⟨⟨by decide, by decide⟩,
    (restart_after_multi_byte_writes nrf51 steady (delayed 5 steady) { config := none } reset
      [Call.write [0, 0] 2 0 3, Call.idle] afterTwoBytesAndATick (by decide) (by decide)
      hnow).2.2.2.2.1,
    (restart_after_multi_byte_writes nrf51 steady (delayed 5 steady) { config := none } reset
      [Call.write [0, 0] 2 0 3, Call.idle] afterTwoBytesAndATick (by decide) (by decide)
      hnow).2.2.2.2.2.2.2 3 [0, 0] 2 0⟩

/-- Claim C8 fails as stated.  After a start from reset and one single-byte
call that returned, a stop followed by a start leaves the shortcut bit set in
SHORTS, which was clear right after the first start; a two-byte call, which
returns `MSG_OK` right after the first start, then never returns, whatever
the event stream and the fuel.  After a history of one two-byte call, the
restarted machine reads another value from `SCB->SCR` than the first
activation did, so the logs of the same call differ.  And when one more tick
passes after the two-byte call, the generator, still running, sets the flag
again, and the restarted machine has the flag set, which was unset right
after the first start. -/
theorem restart_after_single_byte_write_differs :
    (calls nrf51 steady [Call.write [0] 1 0 3]
        (rng_lld_start nrf51 { config := none } reset) = some afterOneByte ∧
      (restart nrf51 afterOneByte).2.SHORTS ≠
        (rng_lld_start nrf51 { config := none } reset).2.SHORTS ∧
      (∃ buf1 m1, rng_lld_write nrf51 steady 3
        (rng_lld_start nrf51 { config := none } reset).1 [0, 0] 2 0
        (rng_lld_start nrf51 { config := none } reset).2 = some (msg_t.MSG_OK, buf1, m1)) ∧
      ∀ (env : Env) (fuel : Nat), rng_lld_write nrf51 env fuel (restart nrf51 afterOneByte).1
        [0, 0] 2 0 (restart nrf51 afterOneByte).2 = none) ∧
    (calls nrf51 steady [Call.write [0, 0] 2 0 3]
        (rng_lld_start nrf51 { config := none } reset) = some afterTwoBytes ∧
      (rng_lld_write nrf51 (delayed 4 steady) 3 (restart nrf51 afterTwoBytes).1 [0, 0] 2 0
          (restart nrf51 afterTwoBytes).2).map
          (fun q => q.2.2.log.drop (restart nrf51 afterTwoBytes).2.log.length) ≠
        (rng_lld_write nrf51 steady 3 (rng_lld_start nrf51 { config := none } reset).1 [0, 0] 2 0
          (rng_lld_start nrf51 { config := none } reset).2).map
          (fun q => q.2.2.log.drop (rng_lld_start nrf51 { config := none } reset).2.log.length)) ∧
    (calls nrf51 steady [Call.write [0, 0] 2 0 3, Call.idle]
        (rng_lld_start nrf51 { config := none } reset) = some afterTwoBytesAndATick ∧
      (restart nrf51 afterTwoBytesAndATick).2.EVENTS_VALRDY = 1 ∧
      (rng_lld_start nrf51 { config := none } reset).2.EVENTS_VALRDY = 0) :=
  ⟨⟨by decide, by decide, ⟨_, _, rfl⟩, fun env fuel =>
      rng_lld_write_shortcut_blocks nrf51 env fuel _ [0, 0] 2 0 _ (le_refl 2) (by decide)⟩,
    ⟨by decide, by decide⟩, by decide, by decide, by decide⟩

end RngLld
